import Mathlib

/-!
# Verification of the scene-simulation core of the `vibevibes/sdk` repository

This file is a shallow embedding, in Lean 4, of the scene-simulation and
rendering-reconciliation core of the repository:

* the JSON value model used by freeform `data` / `style` records
  (`src/scene/types.ts`),
* the tween evaluator `interpolateTween` and its easing table
  (`src/scene/tweens.ts`, bundled in `src/scene/hooks.ts`),
* the selector matcher, condition check, effect application and the
  per-tick rule evaluation of the rule engine (`src/scene/rules.ts`),
* the particle simulator (`src/scene/particles.ts`),
* the scene mutation tools `add` / `update` / `remove` / `set` / `batch`
  (`src/scene/tools.ts`),
* the retained-mode reconciler `syncNode` / `syncGroupChildren`
  (`src/scene/renderer-pixi.ts`).

JavaScript numbers are modelled as exact rationals (`ℚ`).  The two elastic
easing curves apply `Math.pow(2, ·)` and `Math.sin`, which have no exact
rational values; every function that can reach them is parameterised by two
functions `eIn eOut : ℚ → ℚ` standing for those two transcendental curves.
All claims proved below are independent of the choice of `eIn` / `eOut`,
and every other easing curve in the table is a polynomial transcribed
exactly.  `Math.random()` is modelled by an explicit stream of samples
threaded through the computation.
-/

/-! ## JSON values

`data`, `style` and the extra variant-specific node properties are freeform
JavaScript records.  They are modelled by `JVal`, a JSON value tree.
JavaScript object/array equality (`===`) is reference equality; the model
(`jsEq` below) treats any two arrays or objects as unequal, which matches
the source wherever distinct values are compared.
-/

inductive JVal where
  | jnull : JVal
  | jbool : Bool → JVal
  | jnum : ℚ → JVal
  | jstr : String → JVal
  | jarr : List JVal → JVal
  | jobj : List (String × JVal) → JVal

mutual

/-- Structural (deep) equality test on JSON values; used only to obtain
decidable equality for the model (the source compares JSON *strings* for
snapshots, which is equivalent to deep value equality). -/
def JVal.beq : JVal → JVal → Bool
  | .jnull, .jnull => true
  | .jbool a, .jbool b => a = b
  | .jnum a, .jnum b => a = b
  | .jstr a, .jstr b => a = b
  | .jarr a, .jarr b => JVal.beqList a b
  | .jobj a, .jobj b => JVal.beqObj a b
  | _, _ => false

/-- Elementwise `JVal.beq` on lists. -/
def JVal.beqList : List JVal → List JVal → Bool
  | [], [] => true
  | a :: as, b :: bs => JVal.beq a b && JVal.beqList as bs
  | _, _ => false

/-- Elementwise `JVal.beq` on key/value lists. -/
def JVal.beqObj : List (String × JVal) → List (String × JVal) → Bool
  | [], [] => true
  | (k, a) :: as, (l, b) :: bs => k = l && JVal.beq a b && JVal.beqObj as bs
  | _, _ => false

end

mutual

theorem JVal.beq_iff : ∀ a b : JVal, JVal.beq a b = true ↔ a = b
  | .jnull, .jnull => by simp [JVal.beq]
  | .jbool a, .jbool b => by simp [JVal.beq]
  | .jnum a, .jnum b => by simp [JVal.beq]
  | .jstr a, .jstr b => by simp [JVal.beq]
  | .jarr a, .jarr b => by simp [JVal.beq, JVal.beqList_iff a b]
  | .jobj a, .jobj b => by simp [JVal.beq, JVal.beqObj_iff a b]
  | .jnull, .jbool _ => by simp [JVal.beq]
  | .jnull, .jnum _ => by simp [JVal.beq]
  | .jnull, .jstr _ => by simp [JVal.beq]
  | .jnull, .jarr _ => by simp [JVal.beq]
  | .jnull, .jobj _ => by simp [JVal.beq]
  | .jbool _, .jnull => by simp [JVal.beq]
  | .jbool _, .jnum _ => by simp [JVal.beq]
  | .jbool _, .jstr _ => by simp [JVal.beq]
  | .jbool _, .jarr _ => by simp [JVal.beq]
  | .jbool _, .jobj _ => by simp [JVal.beq]
  | .jnum _, .jnull => by simp [JVal.beq]
  | .jnum _, .jbool _ => by simp [JVal.beq]
  | .jnum _, .jstr _ => by simp [JVal.beq]
  | .jnum _, .jarr _ => by simp [JVal.beq]
  | .jnum _, .jobj _ => by simp [JVal.beq]
  | .jstr _, .jnull => by simp [JVal.beq]
  | .jstr _, .jbool _ => by simp [JVal.beq]
  | .jstr _, .jnum _ => by simp [JVal.beq]
  | .jstr _, .jarr _ => by simp [JVal.beq]
  | .jstr _, .jobj _ => by simp [JVal.beq]
  | .jarr _, .jnull => by simp [JVal.beq]
  | .jarr _, .jbool _ => by simp [JVal.beq]
  | .jarr _, .jnum _ => by simp [JVal.beq]
  | .jarr _, .jstr _ => by simp [JVal.beq]
  | .jarr _, .jobj _ => by simp [JVal.beq]
  | .jobj _, .jnull => by simp [JVal.beq]
  | .jobj _, .jbool _ => by simp [JVal.beq]
  | .jobj _, .jnum _ => by simp [JVal.beq]
  | .jobj _, .jstr _ => by simp [JVal.beq]
  | .jobj _, .jarr _ => by simp [JVal.beq]

theorem JVal.beqList_iff : ∀ a b : List JVal, JVal.beqList a b = true ↔ a = b
  | [], [] => by simp [JVal.beqList]
  | a :: as, b :: bs => by
      simp [JVal.beqList, JVal.beq_iff a b, JVal.beqList_iff as bs]
  | [], _ :: _ => by simp [JVal.beqList]
  | _ :: _, [] => by simp [JVal.beqList]

theorem JVal.beqObj_iff : ∀ a b : List (String × JVal), JVal.beqObj a b = true ↔ a = b
  | [], [] => by simp [JVal.beqObj]
  | (k, a) :: as, (l, b) :: bs => by
      simp [JVal.beqObj, JVal.beq_iff a b, JVal.beqObj_iff as bs]
  | [], _ :: _ => by simp [JVal.beqObj]
  | _ :: _, [] => by simp [JVal.beqObj]

end

instance : DecidableEq JVal := fun a b =>
  decidable_of_iff (JVal.beq a b = true) (JVal.beq_iff a b)

/-- JavaScript truthiness of a JSON value (`!!v`).  `NaN` is not
representable in the rational model; every other case is exact. -/
def JVal.truthy : JVal → Bool
  | .jnull => false
  | .jbool b => b
  | .jnum q => q ≠ 0
  | .jstr s => s ≠ ""
  | .jarr _ => true
  | .jobj _ => true

/-- JavaScript strict equality `===` on JSON values.  Primitives compare by
value; arrays and objects compare by reference, so two separately
constructed ones are unequal — the model returns `false` for them (see the
module comment). -/
def jsEq : JVal → JVal → Bool
  | .jnull, .jnull => true
  | .jbool a, .jbool b => a = b
  | .jnum a, .jnum b => a = b
  | .jstr a, .jstr b => a = b
  | _, _ => false

/-- A JavaScript record (`Record<string, any>`), with its key insertion
order.  Keys are assumed distinct, as they are in a JavaScript object. -/
abbrev JRecord : Type := List (String × JVal)

/-- Lookup of a key (`obj[k]`); `none` models `undefined`. -/
def JRecord.get (r : JRecord) (k : String) : Option JVal :=
  (List.find? (fun p => p.1 = k) r).map (·.2)

/-- Object spread `{...a, ...b}`: keys of `a` in order (taking the value
from `b` when it also has the key), then the keys of `b` that are not in
`a`, in order. -/
def JRecord.merge (a b : JRecord) : JRecord :=
  (a.map (fun p => (p.1, ((JRecord.get b p.1).getD p.2)))) ++
    b.filter (fun p => ¬ (a.map Prod.fst).contains p.1)

/-! ## Tween evaluator (`src/scene/tweens.ts`)

The source's `TweenDef` has optional `easing`, `delay`, `repeat`, `yoyo`,
`startedAt`; `from`, `to` and `repeat` are renamed `from_`, `to_`,
`repeat_` because the source names are Lean keywords. -/

structure TweenDef where
  property : String
  from_ : ℚ
  to_ : ℚ
  duration : ℚ
  easing : Option String
  delay : Option ℚ
  repeat_ : Option ℚ
  yoyo : Option Bool
  startedAt : Option ℚ
  deriving DecidableEq

/-- Truncation toward zero, as JavaScript applies when computing `a % b`. -/
def qtrunc (q : ℚ) : ℤ := if 0 ≤ q then ⌊q⌋ else ⌈q⌉

/-- The JavaScript remainder operator `a % b` on finite numbers:
`a - b * trunc(a / b)` (the result has the sign of the dividend).  The
source never evaluates it with `b = 0`. -/
def jsMod (a b : ℚ) : ℚ := a - b * qtrunc (a / b)

/-- Easing `linear`: identity. -/
def easeLinearFn : ℚ → ℚ := fun t => t

/-- Easing `ease-in` / `ease-in-cubic`: `t * t * t`. -/
def easeInCubicFn : ℚ → ℚ := fun t => t * t * t

/-- Easing `ease-out` / `ease-out-cubic`: `1 - (1 - t)^3`. -/
def easeOutCubicFn : ℚ → ℚ := fun t => 1 - (1 - t) ^ 3

/-- Easing `ease-in-out` / `ease-in-out-cubic`:
`t < 0.5 ? 4 t³ : 1 - (-2t + 2)³ / 2`. -/
def easeInOutCubicFn : ℚ → ℚ := fun t =>
  if t < 1/2 then 4 * t * t * t else 1 - (-2 * t + 2) ^ 3 / 2

/-- Easing `ease-in-quad`: `t * t`. -/
def easeInQuadFn : ℚ → ℚ := fun t => t * t

/-- Easing `ease-out-quad`: `1 - (1 - t)(1 - t)`. -/
def easeOutQuadFn : ℚ → ℚ := fun t => 1 - (1 - t) * (1 - t)

/-- Easing `ease-in-out-quad`: `t < 0.5 ? 2 t² : 1 - (-2t + 2)² / 2`. -/
def easeInOutQuadFn : ℚ → ℚ := fun t =>
  if t < 1/2 then 2 * t * t else 1 - (-2 * t + 2) ^ 2 / 2

/-- The `bounceOut` helper of the easing table, with `n1 = 7.5625` and
`d1 = 2.75`; entirely rational, transcribed exactly. -/
def bounceOutFn : ℚ → ℚ := fun t =>
  let n1 : ℚ := 121/16
  let d1 : ℚ := 11/4
  if t < 1 / d1 then n1 * t * t
  else if t < 2 / d1 then n1 * (t - 1.5 / d1) * (t - 1.5 / d1) + 0.75
  else if t < 2.5 / d1 then n1 * (t - 2.25 / d1) * (t - 2.25 / d1) + 0.9375
  else n1 * (t - 2.625 / d1) * (t - 2.625 / d1) + 0.984375

/-- The fixed easing table `easingFunctions` of the source, as a partial
lookup from the easing-name string.  `eIn` / `eOut` abstract the
transcendental bodies of the two elastic curves (the source special-cases
`t = 0` and `t = 1` before reaching them, which is kept here).  A name that
is not one of the fourteen keys yields `none` (JavaScript `undefined`). -/
def easingFunctions (eIn eOut : ℚ → ℚ) : String → Option (ℚ → ℚ)
  | "linear" => some easeLinearFn
  | "ease-in" => some easeInCubicFn
  | "ease-out" => some easeOutCubicFn
  | "ease-in-out" => some easeInOutCubicFn
  | "ease-in-quad" => some easeInQuadFn
  | "ease-out-quad" => some easeOutQuadFn
  | "ease-in-out-quad" => some easeInOutQuadFn
  | "ease-in-cubic" => some easeInCubicFn
  | "ease-out-cubic" => some easeOutCubicFn
  | "ease-in-out-cubic" => some easeInOutCubicFn
  | "ease-in-elastic" => some (fun t => if t = 0 ∨ t = 1 then t else eIn t)
  | "ease-out-elastic" => some (fun t => if t = 0 ∨ t = 1 then t else eOut t)
  | "ease-in-bounce" => some (fun t => 1 - bounceOutFn (1 - t))
  | "ease-out-bounce" => some bounceOutFn
  | _ => none

/-- `interpolateTween(tween, now)` from `src/scene/tweens.ts`, transcribed
branch for branch.  Returns `none` exactly where the source returns
`null`. -/
def interpolateTween (eIn eOut : ℚ → ℚ) (tw : TweenDef) (now : ℚ) : Option ℚ :=
  match tw.startedAt with
  | none => none
  | some t0 =>
    let delay := tw.delay.getD 0
    let elapsed := now - t0 - delay
    if elapsed < 0 then some tw.from_
    else
      let repeatV := tw.repeat_.getD 0
      let duration := tw.duration
      if duration ≤ 0 then some tw.to_
      else
        let iteration : ℤ := ⌊elapsed / duration⌋
        let progress := jsMod elapsed duration / duration
        if 0 ≤ repeatV ∧ (iteration : ℚ) > repeatV then
          if tw.yoyo.getD false = true ∧ jsMod repeatV 2 = 0 then some tw.from_
          else some tw.to_
        else
          let progress := if tw.yoyo.getD false = true ∧ iteration % 2 = 1 then
            1 - progress else progress
          let easingName := tw.easing.getD "ease-in-out"
          let easeFn := (easingFunctions eIn eOut easingName).getD easeLinearFn
          some (tw.from_ + (tw.to_ - tw.from_) * easeFn (max 0 (min 1 progress)))

/-- The progress value the source feeds into the easing function: the
fractional position inside the current iteration, reflected when `yoyo` is
set and the iteration index is odd. -/
def tweenProgress (tw : TweenDef) (t0 now : ℚ) : ℚ :=
  let elapsed := now - t0 - tw.delay.getD 0
  let p := jsMod elapsed tw.duration / tw.duration
  if tw.yoyo.getD false = true ∧ ⌊elapsed / tw.duration⌋ % 2 = 1 then 1 - p else p

theorem interpolateTween_isSome (eIn eOut : ℚ → ℚ) (tw : TweenDef) (now t0 : ℚ)
    (h0 : tw.startedAt = some t0) :
    ∃ v, interpolateTween eIn eOut tw now = some v := by
  unfold interpolateTween
  rw [h0]
  dsimp only
  split_ifs <;> exact ⟨_, rfl⟩

theorem interpolateTween_none_iff (eIn eOut : ℚ → ℚ) (tw : TweenDef) (now : ℚ) :
    interpolateTween eIn eOut tw now = none ↔ tw.startedAt = none := by
  cases h : tw.startedAt with
  | none => simp [interpolateTween, h]
  | some t0 =>
      obtain ⟨v, hv⟩ := interpolateTween_isSome eIn eOut tw now t0 h
      simp [hv]

theorem interpolateTween_linear_eval (eIn eOut : ℚ → ℚ) (tw : TweenDef) (t0 : ℚ)
    (h0 : tw.startedAt = some t0) (hdel : tw.delay.getD 0 = 0)
    (hrep : tw.repeat_.getD 0 = 0) (hyo : tw.yoyo.getD false = false)
    (hdur : 0 < tw.duration) (heas : tw.easing = some "linear") (now : ℚ) :
    interpolateTween eIn eOut tw now =
      some (if now - t0 < 0 then tw.from_
            else if tw.duration ≤ now - t0 then tw.to_
            else tw.from_ + (tw.to_ - tw.from_) * ((now - t0) / tw.duration)) := by
  have hlin : easingFunctions eIn eOut "linear" = some easeLinearFn := rfl
  unfold interpolateTween
  rw [h0]
  dsimp only
  rw [hdel, hrep, hyo, heas]
  simp only [sub_zero, Option.getD_some, hlin, le_refl, true_and,
    show (false = true) = False by simp, false_and, if_false]
  set e := now - t0 with he
  by_cases h1 : e < 0
  · rw [if_pos h1, if_pos h1]
  · rw [if_neg h1, if_neg h1, if_neg (not_le.mpr hdur)]
    have h1' : (0:ℚ) ≤ e := not_lt.mp h1
    by_cases h4 : tw.duration ≤ e
    · have h1le : (1:ℚ) ≤ e / tw.duration := (one_le_div hdur).mpr h4
      have hfl : (1:ℤ) ≤ ⌊e / tw.duration⌋ := by
        rw [Int.le_floor]; exact_mod_cast h1le
      have hq : ((⌊e / tw.duration⌋ : ℤ) : ℚ) > 0 := by
        have : ((1:ℤ):ℚ) ≤ ((⌊e / tw.duration⌋ : ℤ) : ℚ) := by exact_mod_cast hfl
        linarith
      rw [if_pos hq, if_pos h4]
    · have hlt1 : e / tw.duration < 1 := (div_lt_one hdur).mpr (not_le.mp h4)
      have hdiv0 : (0:ℚ) ≤ e / tw.duration := div_nonneg h1' hdur.le
      have hfl : ⌊e / tw.duration⌋ = 0 := by
        rw [Int.floor_eq_zero_iff]; exact ⟨hdiv0, hlt1⟩
      have hq : ¬ (((⌊e / tw.duration⌋ : ℤ) : ℚ) > 0) := by
        rw [hfl]; norm_num
      rw [if_neg hq, if_neg h4]
      have hmod : jsMod e tw.duration = e := by
        unfold jsMod qtrunc
        rw [if_pos hdiv0, hfl]
        push_cast
        ring
      rw [hmod]
      have hclamp : max 0 (min 1 (e / tw.duration)) = e / tw.duration := by
        rw [min_eq_right hlt1.le, max_eq_right hdiv0]
      simp only [hclamp, easeLinearFn]

/-- A tween with a 1000 ms delay: linear, `from = 0`, `to = 10`,
`duration = 1000`, `repeat = 0`, `yoyo = false`, armed at `startedAt = 0`. -/
def tweenDelayed : TweenDef :=
  { property := "transform.x", from_ := 0, to_ := 10, duration := 1000,
    easing := some "linear", delay := some 1000, repeat_ := some 0,
    yoyo := some false, startedAt := some 0 }

/-- C2, counterexample: for the delayed tween above (`startedAt = 0`,
`duration = 1000`), `interpolateTween` at `now = startedAt + duration`
returns `from = 0`, not `to = 10` — the claim's endpoint identity fails for
tween descriptors with a non-zero `delay`. -/
theorem claim_C2_counterexample :
    tweenDelayed.startedAt = some 0 ∧ tweenDelayed.duration = 1000 ∧
    tweenDelayed.repeat_.getD 0 = 0 ∧ tweenDelayed.yoyo.getD false = false ∧
    tweenDelayed.easing = some "linear" ∧
    interpolateTween id id tweenDelayed (0 + 1000) = some 0 ∧
    interpolateTween id id tweenDelayed (0 + 1000) ≠ some tweenDelayed.to_ := by
  refine ⟨rfl, rfl, rfl, rfl, rfl, ?_, ?_⟩ <;>
    norm_num [interpolateTween, tweenDelayed, jsMod, qtrunc, easingFunctions,
      easeLinearFn]

/-- C2, amended: with `delay` absent or zero (which the counterexample
forces), for every tween with `startedAt` set, `repeat = 0`, `yoyo = false`,
`duration > 0` and linear easing: the value at `now = startedAt` is `from`,
the value at `now = startedAt + duration` is `to`, the value is monotone
non-decreasing in `now` when `to > from`, and (for arbitrary tweens)
`interpolateTween` returns `null` exactly when `startedAt` is unset. -/
theorem claim_C2_amended (eIn eOut : ℚ → ℚ) (tw : TweenDef) (t0 : ℚ)
    (h0 : tw.startedAt = some t0) (hdel : tw.delay.getD 0 = 0)
    (hrep : tw.repeat_.getD 0 = 0) (hyo : tw.yoyo.getD false = false)
    (hdur : 0 < tw.duration) (heas : tw.easing = some "linear") :
    interpolateTween eIn eOut tw t0 = some tw.from_
    ∧ interpolateTween eIn eOut tw (t0 + tw.duration) = some tw.to_
    ∧ (tw.from_ < tw.to_ → ∀ n1 n2 v1 v2, n1 ≤ n2 →
        interpolateTween eIn eOut tw n1 = some v1 →
        interpolateTween eIn eOut tw n2 = some v2 → v1 ≤ v2)
    ∧ (∀ tw2 : TweenDef, ∀ n : ℚ,
        (interpolateTween eIn eOut tw2 n = none ↔ tw2.startedAt = none)) := by
  have heval := interpolateTween_linear_eval eIn eOut tw t0 h0 hdel hrep hyo hdur heas
  refine ⟨?_, ?_, ?_, ?_⟩
  · rw [heval t0]
    rw [if_neg (by simp), if_neg (by simp [not_le.mpr hdur])]
    norm_num
  · rw [heval (t0 + tw.duration)]
    rw [if_neg (by simp [not_lt.mpr hdur.le]), if_pos (by simp)]
  · intro hlt n1 n2 v1 v2 hle hv1 hv2
    rw [heval n1] at hv1
    rw [heval n2] at hv2
    have hv1' := Option.some.inj hv1
    have hv2' := Option.some.inj hv2
    subst hv1' hv2'
    have hsub : n1 - t0 ≤ n2 - t0 := by linarith
    have hgap : (0:ℚ) ≤ tw.to_ - tw.from_ := by linarith
    by_cases p1 : n1 - t0 < 0
    · rw [if_pos p1]
      by_cases q1 : n2 - t0 < 0
      · rw [if_pos q1]
      · rw [if_neg q1]
        by_cases q2 : tw.duration ≤ n2 - t0
        · rw [if_pos q2]; linarith
        · rw [if_neg q2]
          have hd0 : (0:ℚ) ≤ (n2 - t0) / tw.duration :=
            div_nonneg (not_lt.mp q1) hdur.le
          nlinarith
    · rw [if_neg p1]
      have q1 : ¬ n2 - t0 < 0 := by
        intro h; exact p1 (lt_of_le_of_lt hsub h)
      rw [if_neg q1]
      by_cases p2 : tw.duration ≤ n1 - t0
      · rw [if_pos p2, if_pos (le_trans p2 hsub)]
      · rw [if_neg p2]
        have hr1 : (n1 - t0) / tw.duration < 1 := (div_lt_one hdur).mpr (not_le.mp p2)
        have hd1 : (0:ℚ) ≤ (n1 - t0) / tw.duration :=
          div_nonneg (not_lt.mp p1) hdur.le
        by_cases q2 : tw.duration ≤ n2 - t0
        · rw [if_pos q2]
          nlinarith
        · rw [if_neg q2]
          have hdl : (n1 - t0) / tw.duration ≤ (n2 - t0) / tw.duration :=
            (div_le_div_iff_of_pos_right hdur).mpr hsub
          nlinarith
  · intro tw2 n
    exact interpolateTween_none_iff eIn eOut tw2 n

/-- A plain linear tween used as the concrete instance for witnesses:
`from = 0`, `to = 10`, `duration = 1000`, no delay/repeat/yoyo, armed at
`startedAt = 0`. -/
def tweenLinear : TweenDef :=
  { property := "transform.x", from_ := 0, to_ := 10, duration := 1000,
    easing := some "linear", delay := none, repeat_ := none,
    yoyo := none, startedAt := some 0 }

/-- Witness for `claim_C2_amended` at the concrete tween `tweenLinear`. -/
theorem claim_C2_witness :
    interpolateTween id id tweenLinear 0 = some tweenLinear.from_
    ∧ interpolateTween id id tweenLinear (0 + tweenLinear.duration) =
        some tweenLinear.to_
    ∧ (tweenLinear.from_ < tweenLinear.to_ → ∀ n1 n2 v1 v2, n1 ≤ n2 →
        interpolateTween id id tweenLinear n1 = some v1 →
        interpolateTween id id tweenLinear n2 = some v2 → v1 ≤ v2)
    ∧ (∀ tw2 : TweenDef, ∀ n : ℚ,
        (interpolateTween id id tw2 n = none ↔ tw2.startedAt = none)) :=
  claim_C2_amended id id tweenLinear 0 rfl rfl rfl rfl (by norm_num [tweenLinear]) rfl

/-- C9: for every armed tween with `duration > 0` and `repeat ≥ 0`, whenever
`floor((now - startedAt - delay) / duration) > repeat` the tween is
complete: `interpolateTween` returns `to`, except when `yoyo` is set and
`repeat` is even, in which case it returns `from`. -/
theorem claim_C9 (eIn eOut : ℚ → ℚ) (tw : TweenDef) (t0 r now : ℚ)
    (h0 : tw.startedAt = some t0) (hdur : 0 < tw.duration)
    (hr : tw.repeat_ = some r) (hr0 : 0 ≤ r)
    (hit : ((⌊(now - t0 - tw.delay.getD 0) / tw.duration⌋ : ℤ) : ℚ) > r) :
    interpolateTween eIn eOut tw now =
      some (if tw.yoyo.getD false = true ∧ jsMod r 2 = 0 then tw.from_
            else tw.to_) := by
  unfold interpolateTween
  rw [h0]
  dsimp only
  rw [hr]
  simp only [Option.getD_some]
  set e := now - t0 - tw.delay.getD 0 with he
  have hfl1 : (1:ℤ) ≤ ⌊e / tw.duration⌋ := by
    have h0q : (0:ℚ) < (⌊e / tw.duration⌋ : ℚ) := lt_of_le_of_lt hr0 hit
    have h0z : (0:ℤ) < ⌊e / tw.duration⌋ := by exact_mod_cast h0q
    omega
  have hele : tw.duration ≤ e := by
    have h1le : (1:ℚ) ≤ e / tw.duration := by
      have h : ((1:ℤ):ℚ) ≤ e / tw.duration := Int.le_floor.mp hfl1
      exact_mod_cast h
    exact (one_le_div hdur).mp h1le
  rw [if_neg (by push_neg; linarith)]
  rw [if_neg (not_le.mpr hdur)]
  rw [if_pos ⟨hr0, hit⟩]
  split_ifs <;> rfl

/-- A yoyo tween with `repeat = 1`, used as the concrete instance for the
C9 witness: `duration = 100`, armed at 0. -/
def tweenYoyo : TweenDef :=
  { property := "transform.x", from_ := 3, to_ := 7, duration := 100,
    easing := none, delay := none, repeat_ := some 1,
    yoyo := some true, startedAt := some 0 }

/-- Witness for `claim_C9` at the concrete tween `tweenYoyo` and
`now = 1000` (iteration `10 > repeat = 1`; odd repeat, so the completed
yoyo tween rests at `to`). -/
theorem claim_C9_witness :
    interpolateTween id id tweenYoyo 1000 =
      some (if tweenYoyo.yoyo.getD false = true ∧ jsMod 1 2 = 0 then
              tweenYoyo.from_
            else tweenYoyo.to_) :=
  claim_C9 id id tweenYoyo 0 1 1000 rfl (by norm_num [tweenYoyo]) rfl
    (by norm_num)
    (by norm_num [tweenYoyo, Option.getD])

/-- A tween whose easing name `"bogus"` is not a key of the easing table. -/
def tweenBogus : TweenDef :=
  { property := "transform.x", from_ := 0, to_ := 1, duration := 1000,
    easing := some "bogus", delay := none, repeat_ := none,
    yoyo := none, startedAt := some 0 }

/-- C8, counterexample: at `now = 250` (progress `1/4`) the tween with the
unrecognized easing name `"bogus"` evaluates with the `linear` curve, giving
`1/4`; the ease-in-out curve would give `1/16`, so the claim's assertion
that unrecognized easing names fall back to ease-in-out fails. -/
theorem claim_C8_counterexample :
    easingFunctions id id "bogus" = none ∧
    interpolateTween id id tweenBogus 250 = some (1/4) ∧
    tweenBogus.from_ + (tweenBogus.to_ - tweenBogus.from_) *
        easeInOutCubicFn (max 0 (min 1 (tweenProgress tweenBogus 0 250))) =
      1/16 ∧
    ((1:ℚ)/4) ≠ 1/16 := by
  refine ⟨rfl, ?_, ?_, by norm_num⟩
  · norm_num [interpolateTween, tweenBogus, jsMod, qtrunc, easeLinearFn,
      show easingFunctions id id "bogus" = none from rfl]
  · norm_num [tweenBogus, tweenProgress, easeInOutCubicFn, jsMod, qtrunc]

/-- C8, amended: for every armed tween with `duration > 0`, in the easing
branch (`elapsed ≥ 0`, not complete): an *absent* easing name falls back to
the ease-in-out curve, while a *present but unrecognized* easing name falls
back to the `linear` curve; and `interpolateTween` never raises — it
returns a value for every armed tween. -/
theorem claim_C8_amended (eIn eOut : ℚ → ℚ) (tw : TweenDef) (t0 now : ℚ)
    (h0 : tw.startedAt = some t0) (hdur : 0 < tw.duration)
    (he : 0 ≤ now - t0 - tw.delay.getD 0)
    (hnc : ¬(0 ≤ tw.repeat_.getD 0 ∧
        ((⌊(now - t0 - tw.delay.getD 0) / tw.duration⌋ : ℤ) : ℚ) >
          tw.repeat_.getD 0)) :
    (tw.easing = none →
      interpolateTween eIn eOut tw now =
        some (tw.from_ + (tw.to_ - tw.from_) *
          easeInOutCubicFn (max 0 (min 1 (tweenProgress tw t0 now)))))
    ∧ (∀ s, tw.easing = some s → easingFunctions eIn eOut s = none →
        interpolateTween eIn eOut tw now =
          some (tw.from_ + (tw.to_ - tw.from_) *
            (max 0 (min 1 (tweenProgress tw t0 now)))))
    ∧ (∀ tw2 : TweenDef, ∀ n2 t02 : ℚ, tw2.startedAt = some t02 →
        ∃ v, interpolateTween eIn eOut tw2 n2 = some v) := by
  have hmain : ∀ fn, tw.easing.getD "ease-in-out" = fn →
      interpolateTween eIn eOut tw now =
        some (tw.from_ + (tw.to_ - tw.from_) *
          ((easingFunctions eIn eOut fn).getD easeLinearFn)
            (max 0 (min 1 (tweenProgress tw t0 now)))) := by
    intro fn hfn
    unfold interpolateTween
    rw [h0]
    dsimp only
    rw [if_neg (not_lt.mpr he), if_neg (not_le.mpr hdur), if_neg hnc, hfn]
    rfl
  refine ⟨?_, ?_, ?_⟩
  · intro hnone
    have := hmain "ease-in-out" (by rw [hnone]; rfl)
    rw [this]
    rfl
  · intro s hs hsnone
    have := hmain s (by rw [hs]; rfl)
    rw [this, hsnone]
    rfl
  · intro tw2 n2 t02 h02
    exact interpolateTween_isSome eIn eOut tw2 n2 t02 h02

/-- A tween with no easing name, used for the C8 witness. -/
def tweenNoEase : TweenDef :=
  { property := "transform.x", from_ := 0, to_ := 1, duration := 1000,
    easing := none, delay := none, repeat_ := none,
    yoyo := none, startedAt := some 0 }

/-- Witness for `claim_C8_amended` at the concrete tween `tweenNoEase`,
`now = 250`. -/
theorem claim_C8_witness :
    (tweenNoEase.easing = none →
      interpolateTween id id tweenNoEase 250 =
        some (tweenNoEase.from_ + (tweenNoEase.to_ - tweenNoEase.from_) *
          easeInOutCubicFn (max 0 (min 1 (tweenProgress tweenNoEase 0 250)))))
    ∧ (∀ s, tweenNoEase.easing = some s → easingFunctions id id s = none →
        interpolateTween id id tweenNoEase 250 =
          some (tweenNoEase.from_ + (tweenNoEase.to_ - tweenNoEase.from_) *
            (max 0 (min 1 (tweenProgress tweenNoEase 0 250)))))
    ∧ (∀ tw2 : TweenDef, ∀ n2 t02 : ℚ, tw2.startedAt = some t02 →
        ∃ v, interpolateTween id id tw2 n2 = some v) :=
  claim_C8_amended id id tweenNoEase 0 250 rfl (by norm_num [tweenNoEase])
    (by norm_num [tweenNoEase]) (by norm_num [tweenNoEase])

/-! ## Scene graph data model (`src/scene/types.ts`)

A scene node is a tagged variant with base properties and, for groups, an
ordered child list.  The variant-specific payload (`width`, `radius`, `d`,
`text`, …) is kept as a freeform record `extra`, exactly as the handlers
treat it (the source manipulates nodes as open JavaScript records). -/

inductive NodeType where
  | rect | circle | ellipse | line | polyline | polygon | path | text
  | image | group | sprite | tilemap | particles
  deriving DecidableEq

/-- The string tag of a node variant (`node.type`). -/
def NodeType.str : NodeType → String
  | .rect => "rect"
  | .circle => "circle"
  | .ellipse => "ellipse"
  | .line => "line"
  | .polyline => "polyline"
  | .polygon => "polygon"
  | .path => "path"
  | .text => "text"
  | .image => "image"
  | .group => "group"
  | .sprite => "sprite"
  | .tilemap => "tilemap"
  | .particles => "particles"

structure Transform where
  x : Option ℚ := none
  y : Option ℚ := none
  rotation : Option ℚ := none
  scaleX : Option ℚ := none
  scaleY : Option ℚ := none
  originX : Option ℚ := none
  originY : Option ℚ := none
  deriving DecidableEq

structure Vec2 where
  x : ℚ
  y : ℚ
  deriving DecidableEq

/-- The non-variant, non-children properties of a scene node. -/
structure NodeData where
  id : String
  name : Option String := none
  transform : Option Transform := none
  style : Option JRecord := none
  interactive : Option Bool := none
  data : Option JRecord := none
  tween : Option TweenDef := none
  extra : JRecord := []
  deriving DecidableEq

inductive SceneNode where
  | node (ntype : NodeType) (props : NodeData)
      (children : Option (List SceneNode)) : SceneNode

/-- The variant tag of a node. -/
def SceneNode.ntype : SceneNode → NodeType
  | .node t _ _ => t

/-- The base properties of a node. -/
def SceneNode.props : SceneNode → NodeData
  | .node _ p _ => p

/-- The child list of a node (`undefined` for non-groups). -/
def SceneNode.children : SceneNode → Option (List SceneNode)
  | .node _ _ c => c

/-- The `id` of a node. -/
def SceneNode.id (n : SceneNode) : String := n.props.id

/-- Rebuild a node with a new child list. -/
def SceneNode.withChildren : SceneNode → List SceneNode → SceneNode
  | .node t p _, cs => .node t p (some cs)

/-- Rebuild a node with new base properties (same variant and children). -/
def SceneNode.withProps : SceneNode → NodeData → SceneNode
  | .node t _ c, p => .node t p c

mutual

/-- Structural equality test on scene nodes (used to obtain decidable
equality; JSON-string snapshot comparison in the reconciler is equality of
the underlying values). -/
def SceneNode.beq : SceneNode → SceneNode → Bool
  | .node t1 p1 c1, .node t2 p2 c2 =>
      t1 = t2 && p1 = p2 && SceneNode.beqOpt c1 c2

/-- `SceneNode.beq` on optional child lists. -/
def SceneNode.beqOpt : Option (List SceneNode) → Option (List SceneNode) → Bool
  | none, none => true
  | some a, some b => SceneNode.beqList a b
  | _, _ => false

/-- Elementwise `SceneNode.beq`. -/
def SceneNode.beqList : List SceneNode → List SceneNode → Bool
  | [], [] => true
  | a :: as, b :: bs => SceneNode.beq a b && SceneNode.beqList as bs
  | _, _ => false

end

mutual

theorem SceneNode.beq_true_iff : ∀ a b : SceneNode, SceneNode.beq a b = true ↔ a = b
  | .node t1 p1 c1, .node t2 p2 c2 => by
      simp [SceneNode.beq, SceneNode.beqOpt_true_iff c1 c2, and_assoc]

theorem SceneNode.beqOpt_true_iff :
    ∀ a b : Option (List SceneNode), SceneNode.beqOpt a b = true ↔ a = b
  | none, none => by simp [SceneNode.beqOpt]
  | some a, some b => by simp [SceneNode.beqOpt, SceneNode.beqList_true_iff a b]
  | none, some _ => by simp [SceneNode.beqOpt]
  | some _, none => by simp [SceneNode.beqOpt]

theorem SceneNode.beqList_true_iff :
    ∀ a b : List SceneNode, SceneNode.beqList a b = true ↔ a = b
  | [], [] => by simp [SceneNode.beqList]
  | a :: as, b :: bs => by
      simp [SceneNode.beqList, SceneNode.beq_true_iff a b, SceneNode.beqList_true_iff as bs]
  | [], _ :: _ => by simp [SceneNode.beqList]
  | _ :: _, [] => by simp [SceneNode.beqList]

end

instance : DecidableEq SceneNode := fun a b =>
  decidable_of_iff (SceneNode.beq a b = true) (SceneNode.beq_true_iff a b)

mutual

/-- `walkNodes` of `src/scene/helpers.ts`, specialised to collecting the
visited nodes in order (`collectNodes` of the rule engine): the node itself,
then — when it is a group with a child list — its children, recursively,
in pre-order. -/
def collectNodes (n : SceneNode) : List SceneNode :=
  n :: (match n with
        | .node .group _ (some cs) => collectNodesList cs
        | _ => [])

/-- `collectNodes` over a child list. -/
def collectNodesList : List SceneNode → List SceneNode
  | [] => []
  | c :: cs => collectNodes c ++ collectNodesList cs

end

/-- All node ids of a subtree in visit order (`allNodeIds`). -/
def allIds (n : SceneNode) : List String := (collectNodes n).map SceneNode.id

mutual

/-- `findNode` of `src/scene/tools.ts`: the node itself when the id
matches, else the first match in a depth-first traversal of group
children. -/
def findNode (n : SceneNode) (id : String) : Option SceneNode :=
  if n.id = id then some n
  else match n with
       | .node .group _ (some cs) => findNodeList cs id
       | _ => none

/-- `findNode` over a child list: first hit wins. -/
def findNodeList : List SceneNode → String → Option SceneNode
  | [], _ => none
  | c :: cs, id =>
      match findNode c id with
      | some m => some m
      | none => findNodeList cs id

end

/-- First-level scan of `removeNode`: `children.findIndex(c => c.id === id)`
followed by `splice`; `none` when no direct child has the id. -/
def removeTop : List SceneNode → String → Option (List SceneNode)
  | [], _ => none
  | c :: cs, id =>
      if c.id = id then some cs
      else (removeTop cs id).map (c :: ·)

mutual

/-- `removeNode` of `src/scene/tools.ts` on a group node: splice the first
direct child with the id, else recurse into each group child in order;
`none` when nothing was removed (the source returns `false`). -/
def removeNode : SceneNode → String → Option SceneNode
  | .node _ _ none, _ => none
  | .node t p (some cs), id =>
      (removeNodeList cs id).map (fun cs2 => SceneNode.node t p (some cs2))
termination_by g _ => (sizeOf g, 0)

/-- `removeNode` on a child list: the first-level scan first, then the
recursive descent child by child. -/
def removeNodeList (cs : List SceneNode) (id : String) : Option (List SceneNode) :=
  match removeTop cs id with
  | some cs2 => some cs2
  | none => removeNodeDeep cs id
termination_by (sizeOf cs, 1)

/-- The recursive phase of `removeNode`: try each child that is a group,
keeping the rest untouched. -/
def removeNodeDeep : List SceneNode → String → Option (List SceneNode)
  | [], _ => none
  | c :: cs, id =>
      if c.ntype = .group then
        match removeNode c id with
        | some c2 => some (c2 :: cs)
        | none => (removeNodeDeep cs id).map (c :: ·)
      else (removeNodeDeep cs id).map (c :: ·)
termination_by cs _ => (sizeOf cs, 0)

end

mutual

/-- `replaceNode` of `src/scene/rules.ts` on a group node: replace the
first direct child whose id matches, else recurse into group children in
order; `none` when the id was not found (the source returns `false`). -/
def replaceNode : SceneNode → String → SceneNode → Option SceneNode
  | .node _ _ none, _, _ => none
  | .node t p (some cs), id, rep =>
      (replaceNodeList cs id rep).map (fun cs2 => SceneNode.node t p (some cs2))
termination_by g _ _ => sizeOf g

/-- `replaceNode` over a child list; for each element the id test comes
first, then — for groups — the recursive descent, before moving on. -/
def replaceNodeList : List SceneNode → String → SceneNode → Option (List SceneNode)
  | [], _, _ => none
  | c :: cs, id, rep =>
      if c.id = id then some (rep :: cs)
      else
        match (if c.ntype = .group then replaceNode c id rep else none) with
        | some c2 => some (c2 :: cs)
        | none => (replaceNodeList cs id rep).map (c :: ·)
termination_by cs _ _ => sizeOf cs

end

/-! ## Selector matcher (`nodeMatchesSelector`, `src/scene/rules.ts`) -/

/-- JavaScript `String.prototype.trim`: strip leading and trailing
whitespace (the model uses `Char.isWhitespace`, which covers the ASCII
whitespace the source can receive). -/
def jsTrim (s : String) : String :=
  ⟨((s.data.dropWhile Char.isWhitespace).reverse.dropWhile
      Char.isWhitespace).reverse⟩

/-- Split a string at its *first* colon (`s.indexOf(":")` followed by the
two `slice`s); `none` when there is no colon. -/
def splitColon (s : String) : Option (String × String) :=
  match s.data.findIdx? (· = ':') with
  | none => none
  | some i => some (⟨s.data.take i⟩, ⟨s.data.drop (i + 1)⟩)

/-- `node.data?.[k]`: `none` models `undefined` (no `data`, or key
absent). -/
def dataGet (n : SceneNode) (k : String) : Option JVal :=
  match n.props.data with
  | none => none
  | some d => JRecord.get d k

/-- JavaScript `a === b` where `a` may be `undefined` (`none`): `undefined`
is never strictly equal to a JSON value. -/
def jsEqOpt : Option JVal → JVal → Bool
  | none, _ => false
  | some w, v => jsEq w v

/-- `nodeMatchesSelector(node, selector)` from `src/scene/rules.ts`,
transcribed branch for branch. -/
def nodeMatchesSelector (n : SceneNode) (selector : String) : Bool :=
  let s := jsTrim selector
  if s = "*" then
    match dataGet n "entityType" with
    | some v => v.truthy
    | none => false
  else
    match splitColon s with
    | none => false
    | some (pfx, value) =>
      if pfx = "entityType" then jsEqOpt (dataGet n "entityType") (.jstr value)
      else if pfx = "tag" then
        match dataGet n "tags" with
        | some (.jarr xs) => xs.any (fun v => jsEq v (.jstr value))
        | _ => false
      else if pfx = "name" then
        match n.props.name with
        | some nm => nm = value
        | none => false
      else if pfx = "type" then n.ntype.str = value
      else false

theorem jsEq_jstr_iff (w : JVal) (v : String) :
    jsEq w (.jstr v) = true ↔ w = .jstr v := by
  cases w <;> simp [jsEq]

/-- A circle node carrying `data.entityType = "fish"`. -/
def nodeFish : SceneNode :=
  .node .circle { id := "fish1", data := some [("entityType", .jstr "fish")] }
    none

/-- A circle node carrying the *empty string* as `data.entityType` —
non-null, but falsy. -/
def nodeEmptyET : SceneNode :=
  .node .circle { id := "e1", data := some [("entityType", .jstr "")] } none

/-- C5, counterexample: the selector `" * "` is not `"*"` and contains no
colon, so the claim's grammar says it matches nothing — but the source
trims the selector first and `nodeFish` matches it.  Also, `"*"` on a node
whose `entityType` is the non-null empty string does *not* match, against
the claim's "non-null" reading (the source tests truthiness). -/
theorem claim_C5_counterexample :
    (" * " : String) ≠ "*" ∧ splitColon " * " = none ∧
    nodeMatchesSelector nodeFish " * " = true ∧
    dataGet nodeEmptyET "entityType" = some (.jstr "") ∧
    nodeMatchesSelector nodeEmptyET "*" = false := by
  refine ⟨by decide, by decide, by decide, by decide, by decide⟩

/-- C5, amended: `nodeMatchesSelector` implements the claimed grammar
applied to the *whitespace-trimmed* selector, with `"*"` requiring a
*truthy* (non-empty, non-zero) `data.entityType` rather than merely a
non-null one; it never throws (it is a total boolean function). -/
theorem claim_C5_amended (n : SceneNode) (sel : String) :
    (jsTrim sel = "*" →
      (nodeMatchesSelector n sel = true ↔
        ∃ v, dataGet n "entityType" = some v ∧ v.truthy = true))
    ∧ (∀ v, splitColon (jsTrim sel) = some ("entityType", v) →
        (nodeMatchesSelector n sel = true ↔
          dataGet n "entityType" = some (.jstr v)))
    ∧ (∀ v, splitColon (jsTrim sel) = some ("tag", v) →
        (nodeMatchesSelector n sel = true ↔
          ∃ xs, dataGet n "tags" = some (.jarr xs) ∧ JVal.jstr v ∈ xs))
    ∧ (∀ v, splitColon (jsTrim sel) = some ("name", v) →
        (nodeMatchesSelector n sel = true ↔ n.props.name = some v))
    ∧ (∀ v, splitColon (jsTrim sel) = some ("type", v) →
        (nodeMatchesSelector n sel = true ↔ n.ntype.str = v))
    ∧ (∀ pfx v, splitColon (jsTrim sel) = some (pfx, v) →
        pfx ≠ "entityType" → pfx ≠ "tag" → pfx ≠ "name" → pfx ≠ "type" →
        nodeMatchesSelector n sel = false)
    ∧ (jsTrim sel ≠ "*" → splitColon (jsTrim sel) = none →
        nodeMatchesSelector n sel = false) := by
  have hstar : splitColon "*" = none := by decide
  refine ⟨?_, ?_, ?_, ?_, ?_, ?_, ?_⟩
  · intro hs
    simp only [nodeMatchesSelector, hs, if_pos rfl]
    cases h : dataGet n "entityType" with
    | none => simp
    | some v => simp
  · intro v hv
    have hne : jsTrim sel ≠ "*" := fun h => by rw [h, hstar] at hv; cases hv
    simp only [nodeMatchesSelector, if_neg hne, hv]
    cases h : dataGet n "entityType" with
    | none => simp [jsEqOpt]
    | some w => simp [jsEqOpt, jsEq_jstr_iff]
  · intro v hv
    have hne : jsTrim sel ≠ "*" := fun h => by rw [h, hstar] at hv; cases hv
    simp only [nodeMatchesSelector, if_neg hne, hv]
    rw [if_neg (by decide), if_pos trivial]
    cases h : dataGet n "tags" with
    | none => simp
    | some w =>
        cases w <;> simp [List.any_eq_true, jsEq_jstr_iff]
  · intro v hv
    have hne : jsTrim sel ≠ "*" := fun h => by rw [h, hstar] at hv; cases hv
    simp only [nodeMatchesSelector, if_neg hne, hv]
    rw [if_neg (by decide), if_neg (by decide), if_pos trivial]
    cases h : n.props.name with
    | none => simp
    | some nm => simp
  · intro v hv
    have hne : jsTrim sel ≠ "*" := fun h => by rw [h, hstar] at hv; cases hv
    simp only [nodeMatchesSelector, if_neg hne, hv]
    rw [if_neg (by decide), if_neg (by decide), if_neg (by decide),
      if_pos trivial]
    simp
  · intro pfx v hv h1 h2 h3 h4
    have hne : jsTrim sel ≠ "*" := fun h => by rw [h, hstar] at hv; cases hv
    simp only [nodeMatchesSelector, if_neg hne, hv]
    rw [if_neg h1, if_neg h2, if_neg h3, if_neg h4]
  · intro hne hnone
    simp only [nodeMatchesSelector, if_neg hne, hnone]

/-- Witness for `claim_C5_amended`: the `entityType` clause at the concrete
node `nodeFish` and selector `"entityType:fish"`. -/
theorem claim_C5_witness : nodeMatchesSelector nodeFish "entityType:fish" = true :=
  ((claim_C5_amended nodeFish "entityType:fish").2.1 "fish" (by decide)).mpr
    (by decide)

/-! ## Rule engine (`src/scene/rules.ts`)

`Math.random()` is modelled by an indexed stream `rng : ℕ → ℚ` together
with a counter threaded through every function that can draw; a function
advances the counter exactly when the source calls `Math.random()`. -/

structure ProximityCond where
  target : String
  distance : ℚ
  deriving DecidableEq

structure RuleCondition where
  selector : String
  proximity : Option ProximityCond := none
  state : Option JRecord := none
  cooldownMs : Option ℚ := none
  probability : Option ℚ := none
  deriving DecidableEq

inductive EffectType where
  | transform | style | data | counter | spawn | remove | tween
  deriving DecidableEq

/-- The `tween` payload of a rule effect (no `delay`, no `startedAt`). -/
structure EffectTween where
  property : String
  from_ : ℚ
  to_ : ℚ
  duration : ℚ
  easing : Option String := none
  repeat_ : Option ℚ := none
  yoyo : Option Bool := none
  deriving DecidableEq

/-- A rule effect; `type` is renamed `etype` (Lean keyword). -/
structure RuleEffect where
  etype : EffectType
  dx : Option ℚ := none
  dy : Option ℚ := none
  dRotation : Option ℚ := none
  styleUpdates : Option JRecord := none
  dataUpdates : Option JRecord := none
  field : Option String := none
  delta : Option ℚ := none
  spawnNode : Option JRecord := none
  spawnOffset : Option Vec2 := none
  tween : Option EffectTween := none
  variance : Option ℚ := none
  probability : Option ℚ := none
  deriving DecidableEq

structure Rule where
  id : String
  name : String
  description : String
  enabled : Bool
  trigger : String
  condition : RuleCondition
  effect : RuleEffect
  deriving DecidableEq

/-- `nodePos`: `{x: transform?.x ?? 0, y: transform?.y ?? 0}`. -/
def nodePos (n : SceneNode) : Vec2 :=
  { x := ((n.props.transform.map Transform.x).join).getD 0,
    y := ((n.props.transform.map Transform.y).join).getD 0 }

/-- The proximity test `dist(a, b) <= d` of `checkCondition`.  The source
compares `Math.sqrt(dx² + dy²) <= d`; over the rationals this is equivalent
to `0 ≤ d ∧ dx² + dy² ≤ d²`, which is what the model computes (no square
root is needed for the comparison). -/
def distLe (a b : Vec2) (d : ℚ) : Bool :=
  decide (0 ≤ d) && decide ((a.x - b.x) ^ 2 + (a.y - b.y) ^ 2 ≤ d ^ 2)

/-- The transient cooldown store `Map<string, Record<string, number>>`,
keyed by rule id, then node id. -/
abbrev CooldownMap : Type := List (String × List (String × ℚ))

/-- `cooldowns.get(ruleId)`. -/
def cdGetRule (m : CooldownMap) (rid : String) : Option (List (String × ℚ)) :=
  (m.find? (fun p => p.1 = rid)).map (·.2)

/-- `cooldowns.get(ruleId)?.[nodeId]`. -/
def cdGet (m : CooldownMap) (rid nid : String) : Option ℚ :=
  match cdGetRule m rid with
  | none => none
  | some rec0 => (rec0.find? (fun p => p.1 = nid)).map (·.2)

/-- `if (!cooldowns.has(rule.id)) cooldowns.set(rule.id, {})`. -/
def cdEnsure (m : CooldownMap) (rid : String) : CooldownMap :=
  if (m.find? (fun p => p.1 = rid)).isSome then m else m ++ [(rid, [])]

/-- Overwrite-or-append on the per-rule record (`cd[node.id] = now`). -/
def recSet (rec0 : List (String × ℚ)) (nid : String) (v : ℚ) :
    List (String × ℚ) :=
  if (rec0.find? (fun p => p.1 = nid)).isSome then
    rec0.map (fun p => if p.1 = nid then (p.1, v) else p)
  else rec0 ++ [(nid, v)]

/-- `cooldowns.get(rule.id)![node.id] = now`; a no-op when the rule entry
is absent (the tick loop always ensures it first, so this case is
unreachable there). -/
def cdSet (m : CooldownMap) (rid nid : String) (v : ℚ) : CooldownMap :=
  m.map (fun p => if p.1 = rid then (p.1, recSet p.2 nid v) else p)

/-- `checkCondition(rule, node, allNodes, now, cooldowns)`: selector →
state map → proximity → cooldown → probability, short-circuiting in that
order; a random draw happens exactly when `condition.probability` is
non-null. -/
def checkCondition (rng : ℕ → ℚ) (k : ℕ) (rule : Rule) (n : SceneNode)
    (allNodes : List SceneNode) (now : ℚ) (cds : CooldownMap) : Bool × ℕ :=
  let cond := rule.condition
  if ¬ (nodeMatchesSelector n cond.selector = true) then (false, k)
  else if ¬ ((match cond.state with
              | none => true
              | some st => st.all (fun p => jsEqOpt (dataGet n p.1) p.2)) = true)
    then (false, k)
  else if ¬ ((match cond.proximity with
              | none => true
              | some pc => allNodes.any (fun m =>
                  m.id ≠ n.id && nodeMatchesSelector m pc.target &&
                  distLe (nodePos n) (nodePos m) pc.distance)) = true)
    then (false, k)
  else if ¬ ((match cond.cooldownMs with
              | none => true
              | some cd =>
                  if cd = 0 then true   -- `if (cond.cooldownMs)`: 0 is falsy
                  else decide (¬ (now - (cdGet cds rule.id n.id).getD 0 < cd))) = true)
    then (false, k)
  else
    match cond.probability with
    | some p => if rng k > p then (false, k + 1) else (true, k + 1)
    | none => (true, k)

/-- `applyVariance(v, variance)`; draws one sample exactly when
`variance > 0`. -/
def applyVariance (rng : ℕ → ℚ) (k : ℕ) (v variance : ℚ) : ℚ × ℕ :=
  if variance ≤ 0 then (v, k)
  else (v * (1 + (rng k * 2 - 1) * variance), k + 1)

/-- A deferred structural operation queued by `applyEffect`. -/
inductive PendingOp where
  | spawn (node : JRecord) (parentPos : Vec2)
  | remove (nodeId : String)
  deriving DecidableEq

/-- `{...eff.tween, startedAt: Date.now()}` as a `TweenDef` (the effect
tween carries no `delay`). -/
def effTweenToDef (t : EffectTween) (wallNow : ℚ) : TweenDef :=
  { property := t.property, from_ := t.from_, to_ := t.to_,
    duration := t.duration, easing := t.easing, delay := none,
    repeat_ := t.repeat_, yoyo := t.yoyo, startedAt := some wallNow }

/-- The `cur + delta` of the `counter` effect.  `undefined` and `null`
default to `0` (`?? 0`), booleans coerce to numbers; a string, array or
object current value makes JavaScript concatenate strings, which the
rational model cannot represent — those values are left untouched (no
claim below reaches them). -/
def counterAdd (cur : Option JVal) (d : ℚ) : JVal :=
  match cur with
  | none => .jnum d
  | some .jnull => .jnum d
  | some (.jbool b) => .jnum ((if b then 1 else 0) + d)
  | some (.jnum q) => .jnum (q + d)
  | some v => v

/-- The per-effect-type core of `applyEffect` (the body of its `switch`),
returning the replacement node (or `none`), the operations pushed onto
`pending`, and the advanced random counter. -/
def applyEffectCore (rng : ℕ → ℚ) (k0 : ℕ) (eff : RuleEffect) (n : SceneNode)
    (wallNow : ℚ) : Option SceneNode × List PendingOp × ℕ :=
  let variance := eff.variance.getD 0
  match eff.etype with
  | .transform =>
      let t := n.props.transform.getD {}
      let s1 := match eff.dx with
        | some dx =>
            let (v, k1) := applyVariance rng k0 dx variance
            ({ t with x := some (t.x.getD 0 + v) }, k1, true)
        | none => (t, k0, false)
      let s2 := match eff.dy with
        | some dy =>
            let (v, k2) := applyVariance rng s1.2.1 dy variance
            ({ s1.1 with y := some (s1.1.y.getD 0 + v) }, k2, true)
        | none => s1
      let s3 := match eff.dRotation with
        | some dr =>
            let (v, k3) := applyVariance rng s2.2.1 dr variance
            ({ s2.1 with rotation := some (s2.1.rotation.getD 0 + v) }, k3, true)
        | none => s2
      if s3.2.2 then
        (some (n.withProps { n.props with transform := some s3.1 }), [], s3.2.1)
      else (none, [], s3.2.1)
  | .style =>
      match eff.styleUpdates with
      | some u =>
          (some (n.withProps { n.props with
              style := some (JRecord.merge (n.props.style.getD []) u) }),
            [], k0)
      | none => (none, [], k0)
  | .data =>
      match eff.dataUpdates with
      | some u =>
          (some (n.withProps { n.props with
              data := some (JRecord.merge (n.props.data.getD []) u) }),
            [], k0)
      | none => (none, [], k0)
  | .counter =>
      match eff.field, eff.delta with
      | some f, some d =>
          let (dv, k1) := applyVariance rng k0 d variance
          (some (n.withProps { n.props with
              data := some (JRecord.merge (n.props.data.getD [])
                [(f, counterAdd (dataGet n f) dv)]) }),
            [], k1)
      | _, _ => (none, [], k0)
  | .tween =>
      match eff.tween with
      | some t =>
          (some (n.withProps { n.props with
              tween := some (effTweenToDef t wallNow) }), [], k0)
      | none => (none, [], k0)
  | .spawn =>
      match eff.spawnNode with
      | some sn => (none, [.spawn sn (nodePos n)], k0)
      | none => (none, [], k0)
  | .remove => (none, [.remove n.id], k0)

/-- `applyEffect(rule, node, pending)`: the effect-probability gate (one
draw exactly when `effect.probability` is non-null) in front of the
per-type core.  `wallNow` is the `Date.now()` used to arm tween
effects. -/
def applyEffect (rng : ℕ → ℚ) (k : ℕ) (rule : Rule) (n : SceneNode)
    (wallNow : ℚ) : Option SceneNode × List PendingOp × ℕ :=
  match rule.effect.probability with
  | some p =>
      if rng k > p then (none, [], k + 1)
      else applyEffectCore rng (k + 1) rule.effect n wallNow
  | none => applyEffectCore rng k rule.effect n wallNow

/-- The evolving state of the per-tick loop body of `useRuleTick`. -/
structure TickState where
  root : SceneNode
  cds : CooldownMap
  pending : List PendingOp
  k : ℕ
  rulesEvaluated : ℕ
  rulesFired : ℕ
  nodesAffected : ℕ
  deriving DecidableEq

/-- The inner state while one rule runs over the node snapshot. -/
structure InnerState where
  root : SceneNode
  cds : CooldownMap
  pending : List PendingOp
  k : ℕ
  nodesAffected : ℕ
  fired : Bool
  deriving DecidableEq

/-- One iteration of the inner node loop of the tick body: check the
condition against the *pre-tick node snapshot*, apply the effect, and —
when a replacement was produced — substitute it by id into the working
tree and stamp the cooldown entry; a spawn/remove effect only marks the
rule as fired. -/
def tickVisitNode (rng : ℕ → ℚ) (rule : Rule) (allNodes : List SceneNode)
    (now wallNow : ℚ) (st : InnerState) (n : SceneNode) : InnerState :=
  let ck := checkCondition rng st.k rule n allNodes now st.cds
  if ck.1 then
    let ap := applyEffect rng ck.2 rule n wallNow
    match ap.1 with
    | some m =>
        { root := (replaceNode st.root n.id m).getD st.root,
          cds := cdSet st.cds rule.id n.id now,
          pending := st.pending ++ ap.2.1,
          k := ap.2.2,
          nodesAffected := st.nodesAffected + 1,
          fired := true }
    | none =>
        { st with
          pending := st.pending ++ ap.2.1,
          k := ap.2.2,
          fired := st.fired ||
            (rule.effect.etype = .spawn || rule.effect.etype = .remove) }
  else { st with k := ck.2 }

/-- One iteration of the outer rule loop: ensure the cooldown record for
the rule, then run the rule over every node of the pre-tick snapshot. -/
def tickRuleStep (rng : ℕ → ℚ) (allNodes : List SceneNode) (now wallNow : ℚ)
    (st : TickState) (rule : Rule) : TickState :=
  let cds0 := cdEnsure st.cds rule.id
  let inner0 : InnerState :=
    { root := st.root, cds := cds0, pending := st.pending, k := st.k,
      nodesAffected := st.nodesAffected, fired := false }
  let r := allNodes.foldl (tickVisitNode rng rule allNodes now wallNow) inner0
  { root := r.root, cds := r.cds, pending := r.pending, k := r.k,
    rulesEvaluated := st.rulesEvaluated + 1,
    rulesFired := st.rulesFired + (if r.fired then 1 else 0),
    nodesAffected := r.nodesAffected }

/-- The pure tick body of `useRuleTick`: filter the enabled `"tick"` rules,
snapshot the node list once (stale references — later mutations of the
working tree are not re-read within the same tick), then run every rule
over the snapshot in order.  Cloning the scene is the identity on pure
values. -/
def ruleTick (rng : ℕ → ℚ) (root : SceneNode) (rules : List Rule)
    (cds : CooldownMap) (now wallNow : ℚ) (k : ℕ) : TickState :=
  let tickRules := rules.filter (fun r => r.enabled && r.trigger = "tick")
  let allNodes := collectNodes root
  let init : TickState :=
    { root := root, cds := cds, pending := [], k := k,
      rulesEvaluated := 0, rulesFired := 0, nodesAffected := 0 }
  tickRules.foldl (tickRuleStep rng allNodes now wallNow) init

/-- The children a traversal descends into: a group's child list, and
nothing otherwise (`node.type === 'group' && node.children`). -/
def groupKids : SceneNode → List SceneNode
  | .node .group _ (some cs) => cs
  | _ => []

/-- All ids of a child list in visit order. -/
def idsList (cs : List SceneNode) : List String :=
  (collectNodesList cs).map SceneNode.id

theorem collectNodes_eq (n : SceneNode) :
    collectNodes n = n :: collectNodesList (groupKids n) := by
  cases n with
  | node t p oc =>
      cases t <;> cases oc <;> simp [collectNodes, groupKids, collectNodesList]

theorem collectNodesList_cons (c : SceneNode) (cs : List SceneNode) :
    collectNodesList (c :: cs) = collectNodes c ++ collectNodesList cs := by
  simp [collectNodesList]

theorem findNode_eq (n : SceneNode) (id : String) :
    findNode n id =
      if n.id = id then some n else findNodeList (groupKids n) id := by
  cases n with
  | node t p oc =>
      cases t <;> cases oc <;>
        simp [findNode, groupKids, findNodeList, SceneNode.id]

theorem allIds_eq (n : SceneNode) :
    allIds n = n.id :: idsList (groupKids n) := by
  rw [allIds, collectNodes_eq]
  simp [idsList]

theorem idsList_cons (c : SceneNode) (cs : List SceneNode) :
    idsList (c :: cs) = allIds c ++ idsList cs := by
  simp [idsList, collectNodesList_cons, allIds]

theorem idsList_nil : idsList [] = [] := by
  simp [idsList, collectNodesList]

theorem self_mem_allIds (n : SceneNode) : n.id ∈ allIds n := by
  rw [allIds_eq]; exact List.mem_cons_self _ _

theorem mem_allIds_of_mem_collectList {m : SceneNode} {cs : List SceneNode}
    (h : m ∈ collectNodesList cs) : m.id ∈ idsList cs :=
  List.mem_map_of_mem SceneNode.id h

/-- Two nodes with the same id, variant and children have the same subtree
ids. -/
theorem allIds_congr {a b : SceneNode} (hid : a.id = b.id)
    (ht : a.ntype = b.ntype) (hc : a.children = b.children) :
    allIds a = allIds b := by
  have hk : groupKids a = groupKids b := by
    cases a with
    | node t1 p1 c1 =>
        cases b with
        | node t2 p2 c2 =>
            simp only [SceneNode.ntype] at ht
            simp only [SceneNode.children] at hc
            subst ht; subst hc
            cases t1 <;> cases c1 <;> rfl
  rw [allIds_eq, allIds_eq, hid, hk]

theorem sizeOf_groupKids_lt (n : SceneNode) : sizeOf (groupKids n) < sizeOf n := by
  cases n with
  | node t p oc => cases t <;> cases oc <;> simp [groupKids] <;> omega

mutual

theorem findNode_not_found : ∀ (c : SceneNode) (id : String),
    id ∉ allIds c → findNode c id = none
  | c, id, h => by
      rw [findNode_eq]
      rw [allIds_eq] at h
      rw [if_neg (fun he => h (by rw [he]; exact List.mem_cons_self _ _))]
      exact findNodeList_not_found (groupKids c) id
        (fun hm => h (List.mem_cons_of_mem _ hm))
termination_by c _ _ => (sizeOf c, 0)
decreasing_by
  exact Prod.Lex.left _ _ (sizeOf_groupKids_lt c)

theorem findNodeList_not_found : ∀ (cs : List SceneNode) (id : String),
    id ∉ idsList cs → findNodeList cs id = none
  | [], _, _ => by simp [findNodeList]
  | c :: cs, id, h => by
      rw [idsList_cons] at h
      have h1 : id ∉ allIds c := fun hm => h (List.mem_append_left _ hm)
      have h2 : id ∉ idsList cs := fun hm => h (List.mem_append_right _ hm)
      simp only [findNodeList]
      rw [findNode_not_found c id h1]
      exact findNodeList_not_found cs id h2
termination_by cs _ _ => (sizeOf cs, 1)
decreasing_by
  · exact Prod.Lex.left _ _ (by simp; omega)
  · exact Prod.Lex.left _ _ (by simp)

end

mutual

theorem replaceNode_group_not_found :
    ∀ (p : NodeData) (ocs : Option (List SceneNode)) (id : String)
      (rep : SceneNode),
    id ∉ allIds (.node .group p ocs) → replaceNode (.node .group p ocs) id rep = none
  | _, none, _, _, _ => by simp [replaceNode]
  | p, some cs, id, rep, h => by
      simp only [replaceNode]
      rw [replaceNodeList_not_found cs id rep (by
        rw [allIds_eq] at h
        exact fun hm => h (List.mem_cons_of_mem _ (by simpa [groupKids] using hm)))]
      rfl
termination_by _ ocs _ _ _ => (sizeOf ocs, 0)
decreasing_by
  exact Prod.Lex.left _ _ (by simp)

theorem replaceNodeList_not_found :
    ∀ (cs : List SceneNode) (id : String) (rep : SceneNode),
    id ∉ idsList cs → replaceNodeList cs id rep = none
  | [], _, _, _ => by simp [replaceNodeList]
  | c :: cs, id, rep, h => by
      rw [idsList_cons] at h
      have h1 : id ∉ allIds c := fun hm => h (List.mem_append_left _ hm)
      have h2 : id ∉ idsList cs := fun hm => h (List.mem_append_right _ hm)
      simp only [replaceNodeList]
      rw [if_neg (fun he : c.id = id => h1 (he ▸ self_mem_allIds c))]
      have hdeep : (if c.ntype = .group then replaceNode c id rep else none) = none := by
        split_ifs with hg
        · cases c with
          | node t p oc =>
              simp only [SceneNode.ntype] at hg
              subst hg
              exact replaceNode_group_not_found p oc id rep h1
        · rfl
      rw [hdeep, replaceNodeList_not_found cs id rep h2]
      rfl
termination_by cs _ _ _ => (sizeOf cs, 1)
decreasing_by
  · refine Prod.Lex.left _ _ ?_
    rw [show c = SceneNode.node t p oc from by assumption]
    simp
    omega
  · exact Prod.Lex.left _ _ (by simp)

end

mutual

theorem replaceNode_spec : ∀ (c n rep : SceneNode),
    n ∈ collectNodesList (groupKids c) → (allIds c).Nodup →
    rep.id = n.id → rep.ntype = n.ntype → rep.children = n.children →
    ∃ c2, replaceNode c n.id rep = some c2 ∧ c2.id = c.id ∧
      c2.ntype = c.ntype ∧ findNode c2 n.id = some rep ∧ allIds c2 = allIds c
  | c, n, rep, hmem, hnodup, hid, ht, hc => by
      obtain ⟨cs2, hr, hf, hi⟩ := replaceNodeList_spec (groupKids c) n rep hmem
        (by rw [allIds_eq] at hnodup; exact hnodup.of_cons) hid ht hc
      have hcne : ¬ (c.id = n.id) := by
        intro he
        rw [allIds_eq] at hnodup
        exact (List.nodup_cons.mp hnodup).1
          (he ▸ mem_allIds_of_mem_collectList hmem)
      cases c with
      | node tc pc occ =>
          cases tc <;> cases occ <;>
            try (exfalso; simp only [groupKids, collectNodesList] at hmem;
                 exact (List.not_mem_nil n) hmem)
          rename_i ccs
          simp only [groupKids] at hr hf hi
          refine ⟨.node .group pc (some cs2), ?_, rfl, rfl, ?_, ?_⟩
          · simp [replaceNode, hr]
          · rw [findNode_eq]
            rw [if_neg (by simpa [SceneNode.id, SceneNode.props] using hcne)]
            simpa [groupKids] using hf
          · rw [allIds_eq, allIds_eq]
            simp only [groupKids]
            rw [hi]
            rfl
termination_by c _ _ _ _ _ _ _ => (sizeOf c, 0)
decreasing_by
  · exact Prod.Lex.left _ _ (sizeOf_groupKids_lt c)

theorem replaceNodeList_spec : ∀ (cs : List SceneNode) (n rep : SceneNode),
    n ∈ collectNodesList cs → (idsList cs).Nodup →
    rep.id = n.id → rep.ntype = n.ntype → rep.children = n.children →
    ∃ cs2, replaceNodeList cs n.id rep = some cs2 ∧
      findNodeList cs2 n.id = some rep ∧ idsList cs2 = idsList cs
  | [], n, rep, hmem, _, _, _, _ => by
      exfalso
      simp only [collectNodesList] at hmem
      exact (List.not_mem_nil n) hmem
  | c :: cs, n, rep, hmem, hnodup, hid, ht, hc => by
      rw [collectNodesList_cons] at hmem
      rw [idsList_cons] at hnodup
      obtain ⟨hndA, hndB, hdisj⟩ := List.nodup_append.mp hnodup
      by_cases hA : n ∈ collectNodes c
      · by_cases heq : n = c
        · subst heq
          refine ⟨rep :: cs, ?_, ?_, ?_⟩
          · simp only [replaceNodeList]
            rw [if_pos trivial]
          · simp only [findNodeList]
            rw [findNode_eq, if_pos hid]
          · rw [idsList_cons, idsList_cons, allIds_congr hid ht hc]
        · have hmemk : n ∈ collectNodesList (groupKids c) := by
            rw [collectNodes_eq] at hA
            exact (List.mem_cons.mp hA).resolve_left heq
          obtain ⟨c2, hr, hcid, hct, hcf, hci⟩ :=
            replaceNode_spec c n rep hmemk hndA hid ht hc
          have hcne : ¬ (c.id = n.id) := by
            intro he
            rw [allIds_eq] at hndA
            have hnin := (List.nodup_cons.mp hndA).1
            exact hnin (he ▸ mem_allIds_of_mem_collectList hmemk)
          refine ⟨c2 :: cs, ?_, ?_, ?_⟩
          · simp only [replaceNodeList]
            rw [if_neg hcne]
            have hg : c.ntype = .group := by
              cases c with
              | node t p oc =>
                  cases t <;> cases oc <;>
                    first
                      | rfl
                      | (exfalso;
                         simp only [groupKids, collectNodesList] at hmemk;
                         exact (List.not_mem_nil n) hmemk)
            rw [if_pos hg, hr]
          · simp only [findNodeList]
            rw [findNode_eq, if_neg (by rw [hcid]; exact hcne)]
            have hkids : findNodeList (groupKids c2) n.id = some rep := by
              have h0 := hcf
              rw [findNode_eq, if_neg (by rw [hcid]; exact hcne)] at h0
              exact h0
            rw [hkids]
          · rw [idsList_cons, idsList_cons, hci]
      · have hB : n ∈ collectNodesList cs := (List.mem_append.mp hmem).resolve_left hA
        have hnidB : n.id ∈ idsList cs := mem_allIds_of_mem_collectList hB
        have hnidA : n.id ∉ allIds c := fun hm => hdisj hm hnidB
        have hcne : ¬ (c.id = n.id) := fun he => hnidA (he ▸ self_mem_allIds c)
        obtain ⟨cs2, hr, hf, hi⟩ := replaceNodeList_spec cs n rep hB hndB hid ht hc
        refine ⟨c :: cs2, ?_, ?_, ?_⟩
        · simp only [replaceNodeList]
          rw [if_neg hcne]
          have hdeep :
              (if c.ntype = .group then replaceNode c n.id rep else none) = none := by
            split_ifs with hg
            · cases c with
              | node t p oc =>
                  simp only [SceneNode.ntype] at hg
                  subst hg
                  exact replaceNode_group_not_found _ _ _ _ hnidA
            · rfl
          rw [hdeep, hr]
          rfl
        · simp only [findNodeList]
          rw [findNode_not_found c n.id hnidA, hf]
        · rw [idsList_cons, idsList_cons, hi]
termination_by cs _ _ _ _ _ _ _ => (sizeOf cs, 1)
decreasing_by
  · exact Prod.Lex.left _ _ (by simp; try omega)
  · exact Prod.Lex.left _ _ (by simp; try omega)

end

theorem checkCondition_no_match (rng : ℕ → ℚ) (k : ℕ) (rule : Rule)
    (m : SceneNode) (allNodes : List SceneNode) (now : ℚ) (cds : CooldownMap)
    (h : nodeMatchesSelector m rule.condition.selector = false) :
    checkCondition rng k rule m allNodes now cds = (false, k) := by
  unfold checkCondition
  rw [if_pos (by simp [h])]

theorem tickVisitNode_no_match (rng : ℕ → ℚ) (rule : Rule)
    (allNodes : List SceneNode) (now wallNow : ℚ) (st : InnerState)
    (m : SceneNode)
    (h : nodeMatchesSelector m rule.condition.selector = false) :
    tickVisitNode rng rule allNodes now wallNow st m = st := by
  unfold tickVisitNode
  rw [checkCondition_no_match rng st.k rule m allNodes now st.cds h]
  simp

theorem foldl_tickVisit_no_match (rng : ℕ → ℚ) (rule : Rule)
    (allNodes : List SceneNode) (now wallNow : ℚ) :
    ∀ (nodes : List SceneNode) (st : InnerState),
    (∀ m ∈ nodes, nodeMatchesSelector m rule.condition.selector = false) →
    nodes.foldl (tickVisitNode rng rule allNodes now wallNow) st = st := by
  intro nodes
  induction nodes with
  | nil => intro st _; rfl
  | cons c cs ih =>
      intro st h
      rw [List.foldl_cons,
        tickVisitNode_no_match rng rule allNodes now wallNow st c
          (h c (List.mem_cons_self _ _))]
      exact ih st (fun m hm => h m (List.mem_cons_of_mem _ hm))

/-- The tick rule of the C1 scenario:
`{selector: "entityType:fish", effect: {type: "transform", dx: 2}}` with
`variance = 0`. -/
def fishRule : Rule :=
  { id := "fish-swim", name := "Fish Swim", description := "Fish drift right",
    enabled := true, trigger := "tick",
    condition := { selector := "entityType:fish" },
    effect := { etype := .transform, dx := some 2, variance := some 0 } }

theorem checkCondition_fishRule (rng : ℕ → ℚ) (k : ℕ) (n : SceneNode)
    (allNodes : List SceneNode) (now : ℚ) (cds : CooldownMap)
    (h : nodeMatchesSelector n "entityType:fish" = true) :
    checkCondition rng k fishRule n allNodes now cds = (true, k) := by
  unfold checkCondition
  simp [fishRule, h]

/-- The empty transform literal `{}` (all fields absent). -/
def emptyTf : Transform := {}

/-- Adding the (variance-free) horizontal displacement of a transform
effect to a transform record. -/
def tfAddX (t : Transform) (d : ℚ) : Transform :=
  { t with x := some (t.x.getD 0 + d) }

theorem applyEffect_fishRule (rng : ℕ → ℚ) (k : ℕ) (n : SceneNode)
    (wallNow : ℚ) :
    applyEffect rng k fishRule n wallNow =
      (some (n.withProps
          { n.props with
            transform := some (tfAddX (n.props.transform.getD emptyTf) 2) }),
        [], k) := by
  unfold applyEffect applyEffectCore applyVariance tfAddX emptyTf
  simp [fishRule]

theorem applyEffect_field_no_pending (rng : ℕ → ℚ) (k : ℕ) (rule : Rule)
    (n : SceneNode) (wallNow : ℚ)
    (h : rule.effect.etype = .transform ∨ rule.effect.etype = .style ∨
         rule.effect.etype = .data ∨ rule.effect.etype = .counter) :
    (applyEffect rng k rule n wallNow).2.1 = [] := by
  have hcore : ∀ k0, (applyEffectCore rng k0 rule.effect n wallNow).2.1 = [] := by
    intro k0
    rcases h with h | h | h | h <;> (unfold applyEffectCore; rw [h]) <;>
      dsimp only
    · split <;> rfl
    · cases rule.effect.styleUpdates <;> rfl
    · cases rule.effect.dataUpdates <;> rfl
    · cases hfd : rule.effect.field <;> cases hdl : rule.effect.delta <;>
        simp [hfd, hdl]
  unfold applyEffect
  cases rule.effect.probability with
  | none => exact hcore k
  | some p =>
      dsimp only
      split_ifs
      · rfl
      · exact hcore (k + 1)

theorem SceneNode.withProps_props (n : SceneNode) (p : NodeData) :
    (n.withProps p).props = p := by cases n; rfl

theorem SceneNode.withProps_id (n : SceneNode) (p : NodeData) :
    (n.withProps p).id = p.id := by cases n; rfl

theorem SceneNode.withProps_ntype (n : SceneNode) (p : NodeData) :
    (n.withProps p).ntype = n.ntype := by cases n; rfl

theorem SceneNode.withProps_children (n : SceneNode) (p : NodeData) :
    (n.withProps p).children = n.children := by cases n; rfl

/-- C1: on every document (a root group with duplicate-free ids) containing
exactly one node `n` matching `entityType:fish`, with `transform.x` equal
to `0` (present or defaulted), one tick of the rule
`{selector: "entityType:fish", effect: {type: "transform", dx: 2}}` with
`variance = 0` produces a *new* replacement node (`n2 ≠ n`, the matched
node value is untouched) whose `transform.x` is `2`, substituted into the
working tree by id — the tree keeps exactly the same id set, no structural
operation is queued, and (in general) the `transform`/`style`/`data`/
`counter` effects never queue structural operations. -/
theorem claim_C1 (rng : ℕ → ℚ) (rootP : NodeData) (rootCs : List SceneNode)
    (n : SceneNode) (cds : CooldownMap) (now wallNow : ℚ) (k : ℕ)
    (hnodup : (allIds (.node .group rootP (some rootCs))).Nodup)
    (hmem : n ∈ collectNodesList rootCs)
    (honly : ∀ m ∈ collectNodes (.node .group rootP (some rootCs)),
        (nodeMatchesSelector m "entityType:fish" = true ↔ m = n))
    (hx : ((n.props.transform.getD emptyTf).x).getD 0 = 0) :
    applyEffect rng k fishRule n wallNow =
      (some (n.withProps
        { n.props with
          transform := some (tfAddX (n.props.transform.getD emptyTf) 2) }),
        [], k)
    ∧ (tfAddX (n.props.transform.getD emptyTf) 2).x = some 2
    ∧ findNode
        (ruleTick rng (.node .group rootP (some rootCs)) [fishRule] cds now
          wallNow k).root n.id =
      some (n.withProps
        { n.props with
          transform := some (tfAddX (n.props.transform.getD emptyTf) 2) })
    ∧ n.withProps
        { n.props with
          transform := some (tfAddX (n.props.transform.getD emptyTf) 2) } ≠ n
    ∧ allIds
        (ruleTick rng (.node .group rootP (some rootCs)) [fishRule] cds now
          wallNow k).root =
      allIds (.node .group rootP (some rootCs))
    ∧ (ruleTick rng (.node .group rootP (some rootCs)) [fishRule] cds now
        wallNow k).pending = []
    ∧ (∀ (rule : Rule) (m : SceneNode) (k0 : ℕ),
        (rule.effect.etype = .transform ∨ rule.effect.etype = .style ∨
         rule.effect.etype = .data ∨ rule.effect.etype = .counter) →
        (applyEffect rng k0 rule m wallNow).2.1 = []) := by
  set root : SceneNode := SceneNode.node .group rootP (some rootCs) with hroot
  set t0 : Transform := n.props.transform.getD emptyTf with ht0
  set n2 : SceneNode :=
    n.withProps { n.props with transform := some (tfAddX t0 2) } with hn2
  -- the replacement node really is a different value
  have hne : n2 ≠ n := by
    intro he
    have hp : n2.props = n.props := by rw [he]
    rw [hn2, SceneNode.withProps_props] at hp
    have hxx := congrArg
      (fun p : NodeData => ((p.transform.getD emptyTf).x).getD 0) hp
    simp only [tfAddX, Option.getD_some] at hxx
    rw [← ht0] at hxx
    linarith
  -- locate n in the flattened snapshot
  obtain ⟨pre, post, hsplit⟩ := List.append_of_mem hmem
  have hnodup2 : (idsList rootCs).Nodup := by
    rw [allIds_eq] at hnodup
    simpa [groupKids] using hnodup.of_cons
  have hrootid : root.id ∉ idsList rootCs := by
    rw [allIds_eq] at hnodup
    have := (List.nodup_cons.mp hnodup).1
    simpa [groupKids] using this
  have hrootne : root ≠ n := by
    intro he
    exact hrootid (he ▸ mem_allIds_of_mem_collectList hmem)
  have hidsplit : idsList rootCs =
      (pre.map SceneNode.id) ++ n.id :: (post.map SceneNode.id) := by
    rw [idsList, hsplit]
    simp
  have hnpre : n.id ∉ pre.map SceneNode.id := by
    rw [hidsplit] at hnodup2
    have := (List.nodup_append.mp hnodup2).2.2
    exact fun hm => this hm (List.mem_cons_self _ _)
  have hnpost : n.id ∉ post.map SceneNode.id := by
    rw [hidsplit] at hnodup2
    have := ((List.nodup_append.mp hnodup2).2.1)
    exact (List.nodup_cons.mp this).1
  -- nodes other than n never match
  have hnomatch : ∀ m, m ∈ pre ∨ m ∈ post →
      nodeMatchesSelector m "entityType:fish" = false := by
    intro m hm
    have hmemm : m ∈ collectNodesList rootCs := by
      rw [hsplit]
      rcases hm with h | h
      · exact List.mem_append_left _ h
      · exact List.mem_append_right _ (List.mem_cons_of_mem _ h)
    have hiff := honly m (by
      rw [collectNodes_eq]
      exact List.mem_cons_of_mem _ (by simpa [hroot, groupKids] using hmemm))
    rcases Bool.eq_false_or_eq_true (nodeMatchesSelector m "entityType:fish")
      with ht | hf
    · exfalso
      have hmn : m = n := hiff.mp ht
      subst hmn
      rcases hm with h | h
      · exact hnpre (List.mem_map_of_mem SceneNode.id h)
      · exact hnpost (List.mem_map_of_mem SceneNode.id h)
    · exact hf
  have hrootmatch : nodeMatchesSelector root "entityType:fish" = false := by
    have hiff := honly root (by rw [collectNodes_eq]; exact List.mem_cons_self _ _)
    rcases Bool.eq_false_or_eq_true (nodeMatchesSelector root "entityType:fish")
      with ht | hf
    · exact absurd (hiff.mp ht) hrootne
    · exact hf
  have hnmatch : nodeMatchesSelector n "entityType:fish" = true :=
    (honly n (by
      rw [collectNodes_eq]
      exact List.mem_cons_of_mem _ (by simpa [hroot, groupKids] using hmem))).mpr rfl
  -- the replacement substitutes by id
  obtain ⟨root2', hrepl', hcid', hct', hfind', hids'⟩ :=
    replaceNode_spec root n n2 (by simpa [hroot, groupKids] using hmem) hnodup
      (by rw [hn2, SceneNode.withProps_id]; rfl)
      (by rw [hn2, SceneNode.withProps_ntype])
      (by rw [hn2, SceneNode.withProps_children])
  -- compute the tick
  have htick : ruleTick rng root [fishRule] cds now wallNow k =
      { root := root2', cds := cdSet (cdEnsure cds "fish-swim") "fish-swim" n.id now,
        pending := [], k := k, rulesEvaluated := 1, rulesFired := 1,
        nodesAffected := 1 } := by
    unfold ruleTick
    have hfilter : List.filter (fun r => r.enabled && r.trigger = "tick")
        [fishRule] = [fishRule] := by rfl
    rw [hfilter]
    rw [List.foldl_cons, List.foldl_nil]
    unfold tickRuleStep
    dsimp only
    rw [collectNodes_eq]
    have hkids : groupKids root = rootCs := by rw [hroot]; rfl
    rw [hkids, hsplit]
    rw [List.foldl_cons]
    rw [tickVisitNode_no_match _ _ _ _ _ _ root hrootmatch]
    rw [List.foldl_append]
    rw [foldl_tickVisit_no_match _ _ _ _ _ pre _
      (fun m hm => hnomatch m (Or.inl hm))]
    rw [List.foldl_cons]
    have hvisit : tickVisitNode rng fishRule
        (root :: (pre ++ n :: post)) now wallNow
        { root := root, cds := cdEnsure cds fishRule.id, pending := [],
          k := k, nodesAffected := 0, fired := false } n =
        { root := root2', cds := cdSet (cdEnsure cds fishRule.id) fishRule.id n.id now,
          pending := [], k := k, nodesAffected := 1, fired := true } := by
      unfold tickVisitNode
      rw [checkCondition_fishRule rng k n _ now _ hnmatch]
      dsimp only
      rw [applyEffect_fishRule]
      dsimp only
      rw [hrepl']
      simp
    rw [hvisit]
    rw [foldl_tickVisit_no_match _ _ _ _ _ post _
      (fun m hm => hnomatch m (Or.inr hm))]
    rfl
  refine ⟨?_, ?_, ?_, hne, ?_, ?_, ?_⟩
  · rw [applyEffect_fishRule, ← ht0, ← hn2]
  · rw [tfAddX, hx]
    norm_num
  · rw [htick]
    exact hfind'
  · rw [htick]
    exact hids'
  · rw [htick]
  · intro rule m k0 h
    exact applyEffect_field_no_pending rng k0 rule m wallNow h

/-- Witness for `claim_C1`: the fish scenario on the concrete document
whose root group contains exactly `nodeFish`; after one tick the tree holds
the replacement node with `transform.x = 2`. -/
theorem claim_C1_witness :
    findNode
      (ruleTick (fun _ => (0:ℚ))
        (.node .group { id := "root" } (some [nodeFish])) [fishRule] [] 0 0
        0).root
      "fish1" =
    some (nodeFish.withProps
      { nodeFish.props with
        transform := some (tfAddX (nodeFish.props.transform.getD emptyTf) 2) }) := by
  have h := claim_C1 (fun _ => 0) { id := "root" } [nodeFish] nodeFish [] 0 0 0
    (by decide) (by decide) (by decide) (by rfl)
  exact h.2.2.1

theorem find?_map_keys (r : List (String × ℚ)) (f : String × ℚ → String × ℚ)
    (hf : ∀ p, (f p).1 = p.1) (q : String) :
    (r.map f).find? (fun p => p.1 = q) =
      (r.find? (fun p => p.1 = q)).map f := by
  induction r with
  | nil => rfl
  | cons e r ih =>
      by_cases he : e.1 = q
      · rw [List.map_cons, List.find?_cons_of_pos _ (by simp [hf, he]),
          List.find?_cons_of_pos _ (by simp [he])]
        rfl
      · rw [List.map_cons, List.find?_cons_of_neg _ (by simp [hf, he]),
          List.find?_cons_of_neg _ (by simp [he])]
        exact ih

theorem find?_cdMap_keys (m : CooldownMap)
    (f : String × List (String × ℚ) → String × List (String × ℚ))
    (hf : ∀ p, (f p).1 = p.1) (q : String) :
    (m.map f).find? (fun p => p.1 = q) =
      (m.find? (fun p => p.1 = q)).map f := by
  induction m with
  | nil => rfl
  | cons e m ih =>
      by_cases he : e.1 = q
      · rw [List.map_cons, List.find?_cons_of_pos _ (by simp [hf, he]),
          List.find?_cons_of_pos _ (by simp [he])]
        rfl
      · rw [List.map_cons, List.find?_cons_of_neg _ (by simp [hf, he]),
          List.find?_cons_of_neg _ (by simp [he])]
        exact ih

theorem find?_recSet_other (rec0 : List (String × ℚ)) (nid : String) (v : ℚ)
    (nid2 : String) (h : nid2 ≠ nid) :
    (recSet rec0 nid v).find? (fun p => p.1 = nid2) =
      rec0.find? (fun p => p.1 = nid2) := by
  unfold recSet
  split_ifs with hs
  · rw [find?_map_keys _ _ (fun p => by by_cases hp : p.1 = nid <;> simp [hp])]
    cases hfind : rec0.find? (fun p => p.1 = nid2) with
    | none => rfl
    | some p =>
        have hp : p.1 = nid2 := by simpa using List.find?_some hfind
        simp [hp, h]
  · rw [List.find?_append]
    have h2 : List.find? (fun p => p.1 = nid2) [(nid, v)] = none := by
      rw [List.find?_cons_of_neg _ (by simp; exact fun hh => h hh.symm)]
      rfl
    rw [h2]
    cases rec0.find? (fun p => p.1 = nid2) <;> rfl

theorem find?_recSet_same (rec0 : List (String × ℚ)) (nid : String) (v : ℚ) :
    ((recSet rec0 nid v).find? (fun p => p.1 = nid)).map (·.2) = some v := by
  unfold recSet
  split_ifs with hs
  · rw [find?_map_keys _ _ (fun p => by by_cases hp : p.1 = nid <;> simp [hp])]
    cases hfind : rec0.find? (fun p => p.1 = nid) with
    | none => rw [hfind] at hs; simp at hs
    | some p =>
        have hp : p.1 = nid := by simpa using List.find?_some hfind
        simp [hp]
  · rw [List.find?_append]
    have h1 : rec0.find? (fun p => p.1 = nid) = none := by
      cases hfind : rec0.find? (fun p => p.1 = nid) with
      | none => rfl
      | some p => rw [hfind] at hs; simp at hs
    rw [h1]
    simp [List.find?]

theorem cdGet_cdSet_other (m : CooldownMap) (rid nid : String) (v : ℚ)
    (rid2 nid2 : String) (h : ¬ (rid2 = rid ∧ nid2 = nid)) :
    cdGet (cdSet m rid nid v) rid2 nid2 = cdGet m rid2 nid2 := by
  unfold cdGet cdGetRule cdSet
  rw [find?_cdMap_keys _ _ (fun p => by by_cases hp : p.1 = rid <;> simp [hp])]
  cases hfind : m.find? (fun p => p.1 = rid2) with
  | none => rfl
  | some p =>
      have hp : p.1 = rid2 := by simpa using List.find?_some hfind
      by_cases hr : rid2 = rid
      · have hn : nid2 ≠ nid := fun hnn => h ⟨hr, hnn⟩
        simp only [Option.map_some']
        rw [if_pos (by rw [hp, hr])]
        simp only [Option.map_some']
        rw [find?_recSet_other _ _ _ _ hn]
      · simp only [Option.map_some']
        rw [if_neg (by rw [hp]; exact hr)]

theorem cdGet_cdSet_same (m : CooldownMap) (rid nid : String) (v : ℚ)
    (hm : (cdGetRule m rid).isSome = true) :
    cdGet (cdSet m rid nid v) rid nid = some v := by
  unfold cdGet cdGetRule cdSet
  rw [find?_cdMap_keys _ _ (fun p => by by_cases hp : p.1 = rid <;> simp [hp])]
  cases hfind : m.find? (fun p => p.1 = rid) with
  | none =>
      unfold cdGetRule at hm
      rw [hfind] at hm
      simp at hm
  | some p =>
      have hp : p.1 = rid := by simpa using List.find?_some hfind
      simp only [Option.map_some']
      rw [if_pos hp]
      simp only [Option.map_some']
      exact find?_recSet_same p.2 nid v

/-- A tick rule that removes matched fish nodes. -/
def removeRule : Rule :=
  { id := "eat", name := "Eat", description := "", enabled := true,
    trigger := "tick",
    condition := { selector := "entityType:fish" },
    effect := { etype := .remove } }

/-- C7, counterexample: one tick of a `remove`-effect rule on a document
with one matching node *queues* the remove operation (the rule fired), but
the cooldown entry for `(ruleId, nodeId)` is *not* set — the source stamps
the cooldown only when `applyEffect` returned a replacement node, and
spawn/remove effects return `null`. -/
theorem claim_C7_counterexample :
    (ruleTick (fun _ => 0) (.node .group { id := "root" } (some [nodeFish]))
        [removeRule] [] 5 5 0).pending = [.remove "fish1"]
    ∧ (ruleTick (fun _ => 0) (.node .group { id := "root" } (some [nodeFish]))
        [removeRule] [] 5 5 0).rulesFired = 1
    ∧ cdGet
        (ruleTick (fun _ => 0) (.node .group { id := "root" } (some [nodeFish]))
          [removeRule] [] 5 5 0).cds "eat" "fish1" = none := by
  refine ⟨?_, ?_, ?_⟩ <;> decide

/-- C7, amended: during one tick, the cooldown entry keyed by
`(ruleId, nodeId)` is set to the tick time exactly when an effect was
*actually applied* to the matched node (a replacement node was produced);
it is left unchanged when the condition failed, when the effect produced no
replacement — in particular when a spawn/remove operation was merely
queued — and entries for other `(rule, node)` pairs are never touched.
A node whose cooldown entry is younger than `cooldownMs` does not satisfy
the condition. -/
theorem claim_C7_amended :
    (∀ (rng : ℕ → ℚ) (rule : Rule) (allNodes : List SceneNode)
       (now wallNow : ℚ) (st : InnerState) (n : SceneNode),
       (cdGetRule st.cds rule.id).isSome = true →
       (∀ rid nid, ¬ (rid = rule.id ∧ nid = n.id) →
          cdGet (tickVisitNode rng rule allNodes now wallNow st n).cds rid nid =
            cdGet st.cds rid nid)
       ∧ (∀ k1 m pend k2,
            checkCondition rng st.k rule n allNodes now st.cds = (true, k1) →
            applyEffect rng k1 rule n wallNow = (some m, pend, k2) →
            cdGet (tickVisitNode rng rule allNodes now wallNow st n).cds
              rule.id n.id = some now)
       ∧ (∀ k1 pend k2,
            checkCondition rng st.k rule n allNodes now st.cds = (true, k1) →
            applyEffect rng k1 rule n wallNow = (none, pend, k2) →
            cdGet (tickVisitNode rng rule allNodes now wallNow st n).cds
              rule.id n.id = cdGet st.cds rule.id n.id)
       ∧ (∀ k1,
            checkCondition rng st.k rule n allNodes now st.cds = (false, k1) →
            (tickVisitNode rng rule allNodes now wallNow st n).cds = st.cds))
    ∧ (∀ (rng : ℕ → ℚ) (k : ℕ) (rule : Rule) (n : SceneNode)
         (allNodes : List SceneNode) (now : ℚ) (cds : CooldownMap)
         (c last : ℚ),
        rule.condition.cooldownMs = some c → c ≠ 0 →
        cdGet cds rule.id n.id = some last → now - last < c →
        checkCondition rng k rule n allNodes now cds = (false, k)) := by
  constructor
  · intro rng rule allNodes now wallNow st n hens
    refine ⟨?_, ?_, ?_, ?_⟩
    · intro rid nid hne
      unfold tickVisitNode
      cases hck : (checkCondition rng st.k rule n allNodes now st.cds).1 with
      | false => simp [hck]
      | true =>
          simp only [hck, if_true]
          cases hap : (applyEffect rng
              (checkCondition rng st.k rule n allNodes now st.cds).2 rule n
              wallNow).1 with
          | none => simp [hap]
          | some m =>
              simp only [hap]
              exact cdGet_cdSet_other st.cds rule.id n.id now rid nid hne
    · intro k1 m pend k2 hck hap
      unfold tickVisitNode
      rw [hck]
      dsimp only
      rw [hap]
      dsimp only
      exact cdGet_cdSet_same st.cds rule.id n.id now hens
    · intro k1 pend k2 hck hap
      unfold tickVisitNode
      rw [hck]
      dsimp only
      rw [hap]
      rfl
    · intro k1 hck
      unfold tickVisitNode
      rw [hck]
      rfl
  · intro rng k rule n allNodes now cds c last hcd hc0 hlast hlt
    unfold checkCondition
    dsimp only
    split_ifs with h1 h2 h3 h4 <;> try rfl
    exfalso
    rw [hcd] at h4
    dsimp only at h4
    rw [if_neg hc0, hlast] at h4
    simp only [Option.getD_some] at h4
    rw [decide_eq_true_eq] at h4
    exact h4 hlt

theorem collectNodesList_append (a b : List SceneNode) :
    collectNodesList (a ++ b) = collectNodesList a ++ collectNodesList b := by
  induction a with
  | nil => simp [collectNodesList]
  | cons c cs ih =>
      rw [List.cons_append, collectNodesList_cons, collectNodesList_cons, ih,
        List.append_assoc]

theorem idsList_append (a b : List SceneNode) :
    idsList (a ++ b) = idsList a ++ idsList b := by
  simp [idsList, collectNodesList_append]

theorem removeTop_none (cs : List SceneNode) (id : String)
    (h : ∀ c ∈ cs, ¬ (c.id = id)) : removeTop cs id = none := by
  induction cs with
  | nil => rfl
  | cons c cs ih =>
      rw [removeTop, if_neg (h c (List.mem_cons_self _ _))]
      rw [ih (fun b hb => h b (List.mem_cons_of_mem _ hb))]
      rfl

theorem removeTop_found (pre post : List SceneNode) (n : SceneNode)
    (h : ∀ b ∈ pre, ¬ (b.id = n.id)) :
    removeTop (pre ++ n :: post) n.id = some (pre ++ post) := by
  induction pre with
  | nil => simp [removeTop]
  | cons b pre ih =>
      rw [List.cons_append, removeTop, if_neg (h b (List.mem_cons_self _ _))]
      rw [ih (fun b2 hb => h b2 (List.mem_cons_of_mem _ hb))]
      rfl

theorem mem_collectNodesList_of_mem {c : SceneNode} {cs : List SceneNode}
    (hc : c ∈ cs) : c ∈ collectNodesList cs := by
  induction cs with
  | nil => simp at hc
  | cons b bs ih =>
      rw [collectNodesList_cons]
      rcases List.mem_cons.mp hc with h1 | h1
      · subst h1
        exact List.mem_append_left _
          (by rw [collectNodes_eq]; exact List.mem_cons_self _ _)
      · exact List.mem_append_right _ (ih h1)

mutual

theorem removeNode_group_not_found :
    ∀ (p : NodeData) (ocs : Option (List SceneNode)) (id : String),
    id ∉ allIds (.node .group p ocs) → removeNode (.node .group p ocs) id = none
  | _, none, _, _ => by simp [removeNode]
  | p, some cs, id, h => by
      simp only [removeNode]
      rw [removeNodeList_not_found cs id (by
        rw [allIds_eq] at h
        exact fun hm => h (List.mem_cons_of_mem _ (by simpa [groupKids] using hm)))]
      rfl
termination_by _ ocs _ _ => (sizeOf ocs, 2)
decreasing_by
  exact Prod.Lex.left _ _ (by simp)

theorem removeNodeList_not_found :
    ∀ (cs : List SceneNode) (id : String),
    id ∉ idsList cs → removeNodeList cs id = none
  | cs, id, h => by
      have htop : removeTop cs id = none := by
        apply removeTop_none
        intro c hc hc2
        exact h (hc2 ▸
          mem_allIds_of_mem_collectList (mem_collectNodesList_of_mem hc))
      rw [removeNodeList, htop]
      exact removeNodeDeep_not_found cs id h
termination_by cs _ _ => (sizeOf cs, 1)
decreasing_by
  exact Prod.Lex.right _ (by omega)

theorem removeNodeDeep_not_found :
    ∀ (cs : List SceneNode) (id : String),
    id ∉ idsList cs → removeNodeDeep cs id = none
  | [], _, _ => by simp [removeNodeDeep]
  | c :: cs, id, h => by
      rw [idsList_cons] at h
      have h1 : id ∉ allIds c := fun hm => h (List.mem_append_left _ hm)
      have h2 : id ∉ idsList cs := fun hm => h (List.mem_append_right _ hm)
      rw [removeNodeDeep]
      split_ifs with hg
      · have hnone : removeNode c id = none := by
          cases c with
          | node t p oc =>
              simp only [SceneNode.ntype] at hg
              subst hg
              exact removeNode_group_not_found p oc id h1
        rw [hnone, removeNodeDeep_not_found cs id h2]
        rfl
      · rw [removeNodeDeep_not_found cs id h2]
        rfl
termination_by cs _ _ => (sizeOf cs, 0)
decreasing_by
  · refine Prod.Lex.left _ _ ?_
    rw [show c = SceneNode.node t p oc from by assumption]
    simp
    omega
  · exact Prod.Lex.left _ _ (by simp; try omega)
  · exact Prod.Lex.left _ _ (by simp; try omega)

end

mutual

theorem collect_trans_node : ∀ (c n : SceneNode), n ∈ collectNodes c →
    ∀ y ∈ collectNodes n, y ∈ collectNodes c
  | c, n, hn, y, hy => by
      rw [collectNodes_eq] at hn
      rcases List.mem_cons.mp hn with h1 | h1
      · subst h1; exact hy
      · rw [collectNodes_eq]
        exact List.mem_cons_of_mem _
          (collect_trans_list (groupKids c) n h1 y hy)
termination_by c _ _ _ _ => (sizeOf c, 0)
decreasing_by
  exact Prod.Lex.left _ _ (sizeOf_groupKids_lt c)

theorem collect_trans_list : ∀ (cs : List SceneNode) (n : SceneNode),
    n ∈ collectNodesList cs → ∀ y ∈ collectNodes n, y ∈ collectNodesList cs
  | [], n, hn, _, _ => by simp [collectNodesList] at hn
  | c :: cs, n, hn, y, hy => by
      rw [collectNodesList_cons] at hn ⊢
      rcases List.mem_append.mp hn with h1 | h1
      · exact List.mem_append_left _ (collect_trans_node c n h1 y hy)
      · exact List.mem_append_right _ (collect_trans_list cs n h1 y hy)
termination_by cs _ _ _ _ => (sizeOf cs, 1)
decreasing_by
  · exact Prod.Lex.left _ _ (by simp; try omega)
  · exact Prod.Lex.left _ _ (by simp; try omega)

end

theorem allIds_subtree_subset {cs : List SceneNode} {n : SceneNode}
    (hn : n ∈ collectNodesList cs) : ∀ x ∈ allIds n, x ∈ idsList cs := by
  intro x hx
  rw [allIds] at hx
  rcases List.mem_map.mp hx with ⟨y, hy, hxy⟩
  exact hxy ▸ List.mem_map_of_mem SceneNode.id (collect_trans_list cs n hn y hy)

mutual

theorem removeNode_spec : ∀ (c n : SceneNode),
    n ∈ collectNodesList (groupKids c) → (allIds c).Nodup →
    ∃ cs2, removeNode c n.id = some (c.withChildren cs2) ∧
      (∀ x, x ∈ idsList cs2 ↔ x ∈ idsList (groupKids c) ∧ x ∉ allIds n)
  | c, n, hmem, hnodup => by
      obtain ⟨cs2, hr, hiff⟩ := removeNodeList_spec (groupKids c) n hmem
        (by rw [allIds_eq] at hnodup; exact hnodup.of_cons)
      cases c with
      | node tc pc occ =>
          cases tc <;> cases occ <;>
            try (exfalso; simp only [groupKids, collectNodesList] at hmem;
                 exact (List.not_mem_nil n) hmem)
          rename_i ccs
          simp only [groupKids] at hr hiff
          refine ⟨cs2, ?_, ?_⟩
          · simp only [removeNode, hr]
            rfl
          · simpa [groupKids] using hiff
termination_by c _ _ _ => (sizeOf c, 0)
decreasing_by
  exact Prod.Lex.left _ _ (sizeOf_groupKids_lt c)

theorem removeNodeList_spec : ∀ (cs : List SceneNode) (n : SceneNode),
    n ∈ collectNodesList cs → (idsList cs).Nodup →
    ∃ cs2, removeNodeList cs n.id = some cs2 ∧
      (∀ x, x ∈ idsList cs2 ↔ x ∈ idsList cs ∧ x ∉ allIds n)
  | cs, n, hmem, hnodup => by
      by_cases htopmem : n ∈ cs
      · -- n is a direct child: the first-level splice removes it
        obtain ⟨pre, post, hsplit⟩ := List.append_of_mem htopmem
        subst hsplit
        have hids : idsList (pre ++ n :: post) =
            idsList pre ++ (allIds n ++ idsList post) := by
          rw [idsList_append, idsList_cons]
        rw [hids] at hnodup
        obtain ⟨hnd1, hnd23, hdisj1⟩ := List.nodup_append.mp hnodup
        obtain ⟨hnd2, hnd3, hdisj2⟩ := List.nodup_append.mp hnd23
        have hpre : ∀ b ∈ pre, ¬ (b.id = n.id) := by
          intro b hb he
          exact hdisj1
            (mem_allIds_of_mem_collectList (mem_collectNodesList_of_mem hb))
            (he ▸ List.mem_append_left _ (self_mem_allIds n))
        refine ⟨pre ++ post, ?_, ?_⟩
        · rw [removeNodeList, removeTop_found pre post n hpre]
        · intro x
          rw [idsList_append]
          constructor
          · intro hx
            rcases List.mem_append.mp hx with h1 | h1
            · exact ⟨by rw [hids]; exact List.mem_append_left _ h1,
                fun hm => hdisj1 h1 (List.mem_append_left _ hm)⟩
            · exact ⟨by
                rw [hids]
                exact List.mem_append_right _ (List.mem_append_right _ h1),
                fun hm => hdisj2 hm h1⟩
          · intro ⟨hx, hnx⟩
            rw [hids] at hx
            rcases List.mem_append.mp hx with h1 | h1
            · exact List.mem_append_left _ h1
            · rcases List.mem_append.mp h1 with h2 | h2
              · exact absurd h2 hnx
              · exact List.mem_append_right _ h2
      · -- n is deeper: the first level misses, the recursive phase hits
        have htop : removeTop cs n.id = none := by
          apply removeTop_none
          intro c hc he
          have hcn : c = n := by
            exact @List.inj_on_of_nodup_map SceneNode String SceneNode.id
              (collectNodesList cs) hnodup c (mem_collectNodesList_of_mem hc)
              n hmem he
          exact htopmem (hcn ▸ hc)
        obtain ⟨cs2, hr, hiff⟩ := removeNodeDeep_spec cs n hmem htopmem hnodup
        exact ⟨cs2, by rw [removeNodeList, htop]; exact hr, hiff⟩
termination_by cs _ _ _ => (sizeOf cs, 2)
decreasing_by
  exact Prod.Lex.right _ (by omega)

theorem removeNodeDeep_spec : ∀ (cs : List SceneNode) (n : SceneNode),
    n ∈ collectNodesList cs → n ∉ cs → (idsList cs).Nodup →
    ∃ cs2, removeNodeDeep cs n.id = some cs2 ∧
      (∀ x, x ∈ idsList cs2 ↔ x ∈ idsList cs ∧ x ∉ allIds n)
  | [], n, hmem, _, _ => by
      exfalso
      simp only [collectNodesList] at hmem
      exact (List.not_mem_nil n) hmem
  | c :: cs, n, hmem, htopmem, hnodup => by
      rw [collectNodesList_cons] at hmem
      rw [idsList_cons] at hnodup
      obtain ⟨hndA, hndB, hdisj⟩ := List.nodup_append.mp hnodup
      have hne : n ≠ c := fun he => htopmem (he ▸ List.mem_cons_self _ _)
      by_cases hA : n ∈ collectNodes c
      · -- n lives inside the head child
        have hmemk : n ∈ collectNodesList (groupKids c) := by
          rw [collectNodes_eq] at hA
          exact (List.mem_cons.mp hA).resolve_left hne
        obtain ⟨ccs2, hr, hiff⟩ := removeNode_spec c n hmemk hndA
        have hg : c.ntype = .group := by
          cases c with
          | node t p oc =>
              cases t <;> cases oc <;>
                first
                  | rfl
                  | (exfalso;
                     simp only [groupKids, collectNodesList] at hmemk;
                     exact (List.not_mem_nil n) hmemk)
        have hsub : ∀ x ∈ allIds n, x ∈ allIds c := by
          intro x hx
          rw [allIds_eq]
          exact List.mem_cons_of_mem _ (allIds_subtree_subset hmemk x hx)
        refine ⟨c.withChildren ccs2 :: cs, ?_, ?_⟩
        · rw [removeNodeDeep]
          rw [if_pos hg, hr]
        · intro x
          rw [idsList_cons, idsList_cons]
          have hidsc2 : allIds (c.withChildren ccs2) = c.id :: idsList ccs2 := by
            rw [allIds_eq]
            have : groupKids (c.withChildren ccs2) = ccs2 := by
              cases c with
              | node t p oc =>
                  simp only [SceneNode.ntype] at hg
                  subst hg
                  rfl
            rw [this]
            have : (c.withChildren ccs2).id = c.id := by
              cases c; rfl
            rw [this]
          rw [hidsc2]
          have hcidn : c.id ∉ allIds n := by
            intro hm
            rw [allIds_eq] at hndA
            exact (List.nodup_cons.mp hndA).1 (allIds_subtree_subset hmemk _ hm)
          constructor
          · intro hx
            rcases List.mem_append.mp hx with h1 | h1
            · rcases List.mem_cons.mp h1 with h2 | h2
              · subst h2
                exact ⟨List.mem_append_left _ (self_mem_allIds c), hcidn⟩
              · have := (hiff x).mp h2
                exact ⟨List.mem_append_left _ (by
                  rw [allIds_eq]
                  exact List.mem_cons_of_mem _ this.1), this.2⟩
            · refine ⟨List.mem_append_right _ h1, fun hm => hdisj ?_ h1⟩
              exact hsub x hm
          · intro ⟨hx, hnx⟩
            rcases List.mem_append.mp hx with h1 | h1
            · rw [allIds_eq] at h1
              rcases List.mem_cons.mp h1 with h2 | h2
              · exact List.mem_append_left _ (h2 ▸ List.mem_cons_self _ _)
              · exact List.mem_append_left _
                  (List.mem_cons_of_mem _ ((hiff x).mpr ⟨h2, hnx⟩))
            · exact List.mem_append_right _ h1
      · -- n lives in the tail
        have hB : n ∈ collectNodesList cs := (List.mem_append.mp hmem).resolve_left hA
        have hnidA : n.id ∉ allIds c := fun hm =>
          hdisj hm (mem_allIds_of_mem_collectList hB)
        obtain ⟨cs2, hr, hiff⟩ := removeNodeDeep_spec cs n hB
          (fun hm => htopmem (List.mem_cons_of_mem _ hm)) hndB
        have hsub : ∀ x ∈ allIds n, x ∈ idsList cs := allIds_subtree_subset hB
        have hstep : removeNodeDeep (c :: cs) n.id = some (c :: cs2) := by
          rw [removeNodeDeep]
          split_ifs with hg
          · have hnone : removeNode c n.id = none := by
              cases c with
              | node t p oc =>
                  simp only [SceneNode.ntype] at hg
                  subst hg
                  exact removeNode_group_not_found p oc n.id hnidA
            rw [hnone, hr]
            rfl
          · rw [hr]
            rfl
        refine ⟨c :: cs2, hstep, ?_⟩
        intro x
        rw [idsList_cons, idsList_cons]
        constructor
        · intro hx
          rcases List.mem_append.mp hx with h1 | h1
          · exact ⟨List.mem_append_left _ h1, fun hm => hdisj h1 (hsub x hm)⟩
          · have := (hiff x).mp h1
            exact ⟨List.mem_append_right _ this.1, this.2⟩
        · intro ⟨hx, hnx⟩
          rcases List.mem_append.mp hx with h1 | h1
          · exact List.mem_append_left _ h1
          · exact List.mem_append_right _ ((hiff x).mpr ⟨h1, hnx⟩)
termination_by cs _ _ _ _ => (sizeOf cs, 1)
decreasing_by
  · exact Prod.Lex.left _ _ (by simp; try omega)
  · exact Prod.Lex.left _ _ (by simp; try omega)

end

/-! ### The `scene.remove` tool handler -/

/-- Result value of the `scene.remove` handler: the string `"all"` on
`clear: true`, else the list of ids that were actually removed. -/
inductive RemoveResult where
  | all : RemoveResult
  | ids : List String → RemoveResult
deriving DecidableEq

/-- One iteration of the handler loop `for (const id of nodeIds ?? [])`:
attempt `removeNode` on the working root, recording the id when a node was
spliced out. -/
def removeStep (acc : SceneNode × List String) (id : String) :
    SceneNode × List String :=
  match removeNode acc.1 id with
  | some r => (r, acc.2 ++ [id])
  | none => acc

/-- The `scene.remove` handler of `src/scene/tools.ts`: on a truthy
`clear` the root's child list becomes `[]`; otherwise every id of
`nodeIds ?? []` is removed in order from the working root, collecting the
ids that were found.  `cloneScene` is the identity on the pure values
modelled here, so the clone step is dropped. -/
def sceneRemove (root : SceneNode) (nodeIds : Option (List String))
    (clear : Bool) : SceneNode × RemoveResult :=
  if clear then (root.withChildren [], .all)
  else
    let p := (nodeIds.getD []).foldl removeStep (root, [])
    (p.1, .ids p.2)

/-- When no listed id occurs in the tree, the handler loop leaves the root
untouched and records nothing. -/
theorem foldl_removeStep_none :
    ∀ (ids : List String) (p : NodeData) (ocs : Option (List SceneNode))
      (acc : List String),
    (∀ id ∈ ids, id ∉ allIds (SceneNode.node .group p ocs)) →
    List.foldl removeStep (SceneNode.node .group p ocs, acc) ids =
      (SceneNode.node .group p ocs, acc)
  | [], _, _, _, _ => rfl
  | id :: ids, p, ocs, acc, h => by
      have hnone : removeNode (SceneNode.node .group p ocs) id = none :=
        removeNode_group_not_found p ocs id (h id (List.mem_cons_self _ _))
      rw [List.foldl_cons]
      have hstep : removeStep (SceneNode.node .group p ocs, acc) id =
          (SceneNode.node .group p ocs, acc) := by
        simp only [removeStep, hnone]
      rw [hstep]
      exact foldl_removeStep_none ids p ocs acc
        (fun i hi => h i (List.mem_cons_of_mem _ hi))

/-- A rect leaf with id `"b"`. -/
def nodeB : SceneNode := .node .rect { id := "b" } none

/-- A group with id `"a"` whose only child is `nodeB`. -/
def nodeA : SceneNode := .node .group { id := "a" } (some [nodeB])

/-- An unrelated circle sibling with id `"c"`. -/
def nodeC10c : SceneNode := .node .circle { id := "c" } none

/-- C10: the `remove` handler removes each listed node together with its
entire subtree.  (i) On a duplicate-free tree, removing the single id of a
reachable node `n` yields a root whose reachable ids are exactly the old
ones minus the whole id set of `n`'s subtree, and reports `n.id` as
removed.  (ii) `clear: true` replaces the root's child list by `[]`, so
the root is the only reachable node afterwards, and reports `"all"`.
(iii) Ids absent from the tree are no-ops: nothing changes and nothing is
reported removed.  (iv) Concretely, removing `["a"]` where group `"a"`
contains child `"b"` leaves neither `"a"` nor `"b"` reachable from the
root. -/
theorem claim_C10 :
    (∀ (p : NodeData) (cs : List SceneNode) (n : SceneNode),
      n ∈ collectNodesList cs →
      (allIds (SceneNode.node .group p (some cs))).Nodup →
      ∃ root2,
        sceneRemove (SceneNode.node .group p (some cs)) (some [n.id]) false
          = (root2, .ids [n.id]) ∧
        ∀ x, x ∈ allIds root2 ↔
          x ∈ allIds (SceneNode.node .group p (some cs)) ∧ x ∉ allIds n)
    ∧
    (∀ (root : SceneNode) (nodeIds : Option (List String)),
      sceneRemove root nodeIds true = (root.withChildren [], .all) ∧
      collectNodes (root.withChildren []) = [root.withChildren []])
    ∧
    (∀ (p : NodeData) (ocs : Option (List SceneNode)) (ids : List String),
      (∀ id ∈ ids, id ∉ allIds (SceneNode.node .group p ocs)) →
      sceneRemove (SceneNode.node .group p ocs) (some ids) false
        = (SceneNode.node .group p ocs, .ids []))
    ∧
    (∃ root2,
      sceneRemove (SceneNode.node .group { id := "root" } (some [nodeA, nodeC10c]))
          (some ["a"]) false = (root2, .ids ["a"]) ∧
      findNode root2 "a" = none ∧ findNode root2 "b" = none) := by
  refine ⟨?_, ?_, ?_, ?_⟩
  · intro p cs n hmem hnodup
    obtain ⟨cs2, hr, hiff⟩ :=
      removeNode_spec (SceneNode.node .group p (some cs)) n
        (by simpa [groupKids] using hmem) hnodup
    refine ⟨(SceneNode.node .group p (some cs)).withChildren cs2, ?_, ?_⟩
    · simp only [sceneRemove, Bool.false_eq_true, if_false, Option.getD_some,
        List.foldl_cons, List.foldl_nil, removeStep, hr]
      rfl
    · intro x
      have hsub : ∀ y ∈ allIds n, y ∈ idsList cs := by
        simpa [groupKids] using
          allIds_subtree_subset hmem
      rw [allIds_eq] at hnodup
      simp only [groupKids] at hnodup
      have hpid : p.id ∉ idsList cs := (List.nodup_cons.mp hnodup).1
      have hpidn : p.id ∉ allIds n := fun hm => hpid (hsub _ hm)
      have h2 : allIds ((SceneNode.node .group p (some cs)).withChildren cs2)
          = p.id :: idsList cs2 := by
        rw [allIds_eq]; rfl
      have h1 : allIds (SceneNode.node .group p (some cs))
          = p.id :: idsList cs := by
        rw [allIds_eq]; rfl
      rw [h1, h2]
      simp only [groupKids] at hiff
      constructor
      · intro hx
        rcases List.mem_cons.mp hx with h3 | h3
        · exact ⟨h3 ▸ List.mem_cons_self _ _, fun hm => hpidn (h3 ▸ hm)⟩
        · have := (hiff x).mp h3
          exact ⟨List.mem_cons_of_mem _ this.1, this.2⟩
      · intro ⟨hx, hnx⟩
        rcases List.mem_cons.mp hx with h3 | h3
        · exact h3 ▸ List.mem_cons_self _ _
        · exact List.mem_cons_of_mem _ ((hiff x).mpr ⟨h3, hnx⟩)
  · intro root nodeIds
    refine ⟨rfl, ?_⟩
    cases root with
    | node t pp oc => cases t <;> rfl
  · intro p ocs ids h
    simp only [sceneRemove, Bool.false_eq_true, if_false, Option.getD_some]
    rw [foldl_removeStep_none ids p ocs [] h]
  · have h1 : removeTop [nodeA, nodeC10c] "a" = some [nodeC10c] := by decide
    have h2 : removeNodeList [nodeA, nodeC10c] "a" = some [nodeC10c] := by
      rw [removeNodeList, h1]
    have h3 : removeNode
        (SceneNode.node .group { id := "root" } (some [nodeA, nodeC10c])) "a"
        = some (SceneNode.node .group { id := "root" } (some [nodeC10c])) := by
      simp only [removeNode, h2, Option.map_some']
    refine ⟨SceneNode.node .group { id := "root" } (some [nodeC10c]),
      ?_, by decide, by decide⟩
    simp only [sceneRemove, Bool.false_eq_true, if_false, Option.getD_some,
      List.foldl_cons, List.foldl_nil, removeStep, h3]
    rfl

/-- Concrete instantiation of the quantified subtree-removal clause: in a
root group holding the `"a"`/`"b"` group and an unrelated circle, removing
`nodeA`'s id leaves exactly the ids outside `nodeA`'s subtree. -/
theorem claim_C10_witness :
    ∃ root2,
      sceneRemove (SceneNode.node .group { id := "root" } (some [nodeA, nodeC10c]))
          (some [nodeA.id]) false = (root2, .ids [nodeA.id]) ∧
      ∀ x, x ∈ allIds root2 ↔
        x ∈ allIds (SceneNode.node .group { id := "root" } (some [nodeA, nodeC10c]))
          ∧ x ∉ allIds nodeA :=
  claim_C10.1 { id := "root" } [nodeA, nodeC10c] nodeA (by decide) (by decide)

/-! ### The `scene.batch` tool handler

The batch handler takes untyped operation records; the operation language
below covers the well-typed shapes of the five `op` cases.  The `add`
case's fallbacks for a node record without an `id` (`op.id ?? uid()`) are
unreachable here because the typed node always carries an id. -/

/-- `Object.assign` / spread on one optional property: the new value when
the key is present, else the old one. -/
def overrideOpt {α : Type} (old new : Option α) : Option α :=
  match new with
  | some v => some v
  | none => old

/-- Spread of a partial transform over an existing one
(`{...(node.transform ?? \x7b\x7d), ...props.transform}`). -/
def Transform.spread (a b : Transform) : Transform :=
  { x := overrideOpt a.x b.x,
    y := overrideOpt a.y b.y,
    rotation := overrideOpt a.rotation b.rotation,
    scaleX := overrideOpt a.scaleX b.scaleX,
    scaleY := overrideOpt a.scaleY b.scaleY,
    originX := overrideOpt a.originX b.originX,
    originY := overrideOpt a.originY b.originY }

/-- The typed payload of a batch `update` operation (everything but
`op`/`nodeId`; `id` and `type` are stripped by the source before the
final `Object.assign`). -/
structure UpdateProps where
  transform : Option Transform := none
  style : Option JRecord := none
  tween : Option TweenDef := none
  name : Option String := none
  data : Option JRecord := none
  interactive : Option Bool := none
  deriving DecidableEq

/-- The in-place mutation the batch `update` case performs on the node
found by `findNode`: merge `transform` and `style`, restart `tween` at
`ctx.timestamp`, and assign the remaining properties wholesale. -/
def applyUpdate (ts : ℚ) (up : UpdateProps) (n : SceneNode) : SceneNode :=
  let p := n.props
  let p1 := match up.transform with
    | some t => { p with transform := some (Transform.spread (p.transform.getD emptyTf) t) }
    | none => p
  let p2 := match up.style with
    | some s => { p1 with style := some (JRecord.merge (p1.style.getD []) s) }
    | none => p1
  let p3 := match up.tween with
    | some tw => { p2 with tween := some { tw with startedAt := some ts } }
    | none => p2
  n.withProps { p3 with name := overrideOpt p3.name up.name,
                        data := overrideOpt p3.data up.data,
                        interactive := overrideOpt p3.interactive up.interactive }

mutual

/-- Mutation through `findNode`: rebuild the tree with `f` applied to the
first node (in `findNode`'s traversal order) whose id matches; `none` when
the id is absent, mirroring the `findNode(...) === null` check. -/
def updateNode (n : SceneNode) (id : String) (f : SceneNode → SceneNode) :
    Option SceneNode :=
  if n.id = id then some (f n)
  else match n with
       | .node .group p (some cs) =>
           (updateNodeList cs id f).map (fun cs2 => SceneNode.node .group p (some cs2))
       | _ => none

/-- `updateNode` over a child list: first hit wins, the rest is kept. -/
def updateNodeList : List SceneNode → String → (SceneNode → SceneNode) →
    Option (List SceneNode)
  | [], _, _ => none
  | c :: cs, id, f =>
      match updateNode c id f with
      | some c2 => some (c2 :: cs)
      | none => (updateNodeList cs id f).map (c :: ·)

end

structure Camera where
  x : ℚ
  y : ℚ
  zoom : ℚ
  deriving DecidableEq

/-- A partial camera record, spread over the existing camera. -/
structure CameraPatch where
  x : Option ℚ := none
  y : Option ℚ := none
  zoom : Option ℚ := none
  deriving DecidableEq

/-- `{...(scene.camera ?? default), ...setProps.camera}`. -/
def Camera.patch (base : Camera) (cp : CameraPatch) : Camera :=
  { x := cp.x.getD base.x, y := cp.y.getD base.y, zoom := cp.zoom.getD base.zoom }

/-- A gradient definition: the handler only inspects its `id`; the rest of
the record is carried opaquely. -/
structure Gradient where
  id : String
  rest : JRecord := []
  deriving DecidableEq

/-- `findIndex` on the gradient id, replacing in place on a hit and
pushing at the end otherwise. -/
def gradReplace : List Gradient → Gradient → List Gradient
  | [], g => [g]
  | x :: xs, g => if x.id = g.id then g :: xs else x :: gradReplace xs g

/-- The scene document around the root node (`SceneGraph` of the
source). -/
structure SceneGraph where
  root : SceneNode
  background : Option String := none
  width : Option ℚ := none
  height : Option ℚ := none
  camera : Option Camera := none
  gradients : Option (List Gradient) := none
  deriving DecidableEq

/-- The typed payload of a batch `set` operation. -/
structure SetProps where
  background : Option String := none
  width : Option ℚ := none
  height : Option ℚ := none
  camera : Option CameraPatch := none
  gradient : Option Gradient := none
  deriving DecidableEq

/-- The `set` case: each scene-level property is written when present
(`!= null`), the camera is spread over its default, and the gradient is
upserted by id. -/
def applySet (g : SceneGraph) (sp : SetProps) : SceneGraph :=
  let g1 := match sp.background with
    | some b => { g with background := some b }
    | none => g
  let g2 := match sp.width with
    | some w => { g1 with width := some w }
    | none => g1
  let g3 := match sp.height with
    | some h => { g2 with height := some h }
    | none => g2
  let g4 := match sp.camera with
    | some cp => { g3 with camera := some (Camera.patch (g3.camera.getD { x := 400, y := 300, zoom := 1 }) cp) }
    | none => g3
  match sp.gradient with
  | some gr => { g4 with gradients := some (gradReplace (g4.gradients.getD []) gr) }
  | none => g4

/-- The well-typed batch operations (`op` field dispatch). -/
inductive BatchOp where
  | add (node : SceneNode) (parentId : Option String) : BatchOp
  | update (nodeId : String) (props : UpdateProps) : BatchOp
  | remove (clear : Bool) (nodeIds : Option (List String)) (nodeId : Option String) : BatchOp
  | set (props : SetProps) : BatchOp
  | unknown (opName : String) : BatchOp
  deriving DecidableEq

/-- One entry of the handler's `results` array. -/
inductive BatchResult where
  | addR (nodeId : String) : BatchResult
  | updateR (nodeId : String) : BatchResult
  | removeClearR : BatchResult
  | removeIdsR (nodeIds : List String) : BatchResult
  | removeOneR (nodeId : String) : BatchResult
  | setR : BatchResult
  | errorR (opName : String) (message : String) : BatchResult
  deriving DecidableEq

/-- Append a child to a node's child list (`parent.children.push(node)`);
identity on the (separately rejected) childless case. -/
def appendKid (child n : SceneNode) : SceneNode :=
  match n.children with
  | some ks => n.withChildren (ks ++ [child])
  | none => n

/-- One iteration of the batch loop body: the `switch` on `op.op` plus the
surrounding `try`/`catch`, which turns each `throw` into an
`{op, error}` entry.  Every branch yields the updated scene and the
entries it pushed (the bare `remove` with no payload pushes nothing). -/
def applyBatchOp (ts : ℚ) (g : SceneGraph) : BatchOp → SceneGraph × List BatchResult
  | .add node parentId =>
      let node2 := if node.ntype = .group && node.children = none
                   then node.withChildren [] else node
      let pidOpt : Option String := match parentId with
        | some pid => if pid = "" then none else some pid
        | none => none
      match pidOpt with
      | none =>
          match g.root.children with
          | none => (g, [.errorR "add" "Cannot read properties of undefined (reading \x27push\x27)"])
          | some kids =>
              ({ g with root := g.root.withChildren (kids ++ [node2]) }, [.addR node2.id])
      | some pid =>
          match findNode g.root pid with
          | none => (g, [.errorR "add" ("Parent \x22" ++ pid ++ "\x22 not found")])
          | some p =>
              if p.ntype = .group then
                match p.children with
                | none => (g, [.errorR "add" "Cannot read properties of undefined (reading \x27push\x27)"])
                | some _ =>
                    ({ g with root := (updateNode g.root pid (appendKid node2)).getD g.root },
                      [.addR node2.id])
              else (g, [.errorR "add" ("Parent \x22" ++ pid ++ "\x22 not found")])
  | .update nodeId up =>
      match updateNode g.root nodeId (applyUpdate ts up) with
      | some root2 => ({ g with root := root2 }, [.updateR nodeId])
      | none => (g, [.errorR "update" ("Node \x22" ++ nodeId ++ "\x22 not found")])
  | .remove clear nodeIds nodeId =>
      if clear then ({ g with root := g.root.withChildren [] }, [.removeClearR])
      else match nodeIds with
        | some ids =>
            ({ g with root := ids.foldl (fun r i => (removeNode r i).getD r) g.root },
              [.removeIdsR ids])
        | none =>
            match nodeId with
            | some id =>
                if id = "" then (g, [])
                else ({ g with root := (removeNode g.root id).getD g.root }, [.removeOneR id])
            | none => (g, [])
  | .set sp => (applySet g sp, [.setR])
  | .unknown opName => (g, [.errorR opName ("Unknown operation: " ++ opName)])

/-- The fold state of the batch loop: the working scene and the `results`
pushed so far. -/
def batchStep (ts : ℚ) (acc : SceneGraph × List BatchResult) (op : BatchOp) :
    SceneGraph × List BatchResult :=
  ((applyBatchOp ts acc.1 op).1, acc.2 ++ (applyBatchOp ts acc.1 op).2)

/-- The `scene.batch` handler of `src/scene/tools.ts`: every operation is
applied in array order against the one working copy; `cloneScene` is the
identity on the pure values modelled here. -/
def sceneBatch (ts : ℚ) (g : SceneGraph) (ops : List BatchOp) :
    SceneGraph × List BatchResult :=
  ops.foldl (batchStep ts) (g, [])

/-- Uniform unfolding of `updateNode` through `groupKids`. -/
theorem updateNode_eq (n : SceneNode) (id : String) (f : SceneNode → SceneNode) :
    updateNode n id f =
      if n.id = id then some (f n)
      else (updateNodeList (groupKids n) id f).map (fun cs2 => n.withChildren cs2) := by
  cases n with
  | node t p oc =>
      cases t <;> cases oc <;>
        simp [updateNode, groupKids, updateNodeList, SceneNode.withChildren,
          SceneNode.id]

mutual

theorem updateNode_not_found : ∀ (c : SceneNode) (id : String)
    (f : SceneNode → SceneNode), id ∉ allIds c → updateNode c id f = none
  | c, id, f, h => by
      rw [updateNode_eq]
      rw [allIds_eq] at h
      rw [if_neg (fun he => h (by rw [he]; exact List.mem_cons_self _ _))]
      rw [updateNodeList_not_found (groupKids c) id f
        (fun hm => h (List.mem_cons_of_mem _ hm))]
      rfl
termination_by c _ _ _ => (sizeOf c, 0)
decreasing_by
  exact Prod.Lex.left _ _ (sizeOf_groupKids_lt c)

theorem updateNodeList_not_found : ∀ (cs : List SceneNode) (id : String)
    (f : SceneNode → SceneNode), id ∉ idsList cs → updateNodeList cs id f = none
  | [], _, _, _ => by rw [updateNodeList]
  | c :: cs, id, f, h => by
      rw [idsList_cons] at h
      have h1 : id ∉ allIds c := fun hm => h (List.mem_append_left _ hm)
      have h2 : id ∉ idsList cs := fun hm => h (List.mem_append_right _ hm)
      rw [updateNodeList, updateNode_not_found c id f h1,
        updateNodeList_not_found cs id f h2]
      rfl
termination_by cs _ _ _ => (sizeOf cs, 1)
decreasing_by
  · exact Prod.Lex.left _ _ (by simp; omega)
  · exact Prod.Lex.left _ _ (by simp)

end

/-- Folding the batch loop from a non-empty `results` accumulator only
prepends that accumulator: the scene outcome is accumulator-free. -/
theorem batch_foldl_acc (ts : ℚ) : ∀ (ops : List BatchOp) (g : SceneGraph)
    (acc : List BatchResult),
    List.foldl (batchStep ts) (g, acc) ops =
      ((List.foldl (batchStep ts) (g, []) ops).1,
        acc ++ (List.foldl (batchStep ts) (g, []) ops).2)
  | [], g, acc => by simp
  | op :: ops, g, acc => by
      rw [List.foldl_cons, List.foldl_cons]
      show List.foldl (batchStep ts)
          ((applyBatchOp ts g op).1, acc ++ (applyBatchOp ts g op).2) ops = _
      rw [batch_foldl_acc ts ops (applyBatchOp ts g op).1
        (acc ++ (applyBatchOp ts g op).2)]
      rw [show batchStep ts (g, []) op
          = ((applyBatchOp ts g op).1, [] ++ (applyBatchOp ts g op).2) from rfl]
      rw [batch_foldl_acc ts ops (applyBatchOp ts g op).1
        ([] ++ (applyBatchOp ts g op).2)]
      simp [List.append_assoc]

/-- C6: the batch handler processes every operation in array order against
one working copy — (i) running `ops1 ++ ops2` continues `ops2` from the
scene left by `ops1`, whatever entries (including errors) `ops1` produced,
and concatenates the result entries; (ii) an `update` whose node id is
absent from the tree fails, its error is captured as the individual entry
`\x7bop: "update", error: Node "id" not found\x7d` and the scene is left
unchanged; (iii) concretely, a batch of an update on a missing node
followed by `set` of the background returns one error entry for the first
operation and still applies the background change. -/
theorem claim_C6 :
    (∀ (ts : ℚ) (g : SceneGraph) (ops1 ops2 : List BatchOp),
      sceneBatch ts g (ops1 ++ ops2) =
        ((sceneBatch ts (sceneBatch ts g ops1).1 ops2).1,
          (sceneBatch ts g ops1).2 ++ (sceneBatch ts (sceneBatch ts g ops1).1 ops2).2))
    ∧
    (∀ (ts : ℚ) (g : SceneGraph) (id : String) (up : UpdateProps),
      id ∉ allIds g.root →
      applyBatchOp ts g (.update id up)
        = (g, [.errorR "update" ("Node \x22" ++ id ++ "\x22 not found")]))
    ∧
    (∀ (ts : ℚ) (g : SceneGraph),
      "missing" ∉ allIds g.root →
      sceneBatch ts g
          [.update "missing" {}, .set { background := some "#000" }]
        = ({ g with background := some "#000" },
            [.errorR "update" "Node \x22missing\x22 not found", .setR])) := by
  refine ⟨?_, ?_, ?_⟩
  · intro ts g ops1 ops2
    show List.foldl (batchStep ts) (g, []) (ops1 ++ ops2) = _
    rw [List.foldl_append]
    exact batch_foldl_acc ts ops2 (sceneBatch ts g ops1).1 (sceneBatch ts g ops1).2
  · intro ts g id up h
    have hup : updateNode g.root id (applyUpdate ts up) = none :=
      updateNode_not_found g.root id _ h
    simp only [applyBatchOp, hup]
  · intro ts g h
    have hup : updateNode g.root "missing" (applyUpdate ts {}) = none :=
      updateNode_not_found g.root "missing" _ h
    show List.foldl (batchStep ts) (g, []) _ = _
    rw [List.foldl_cons, List.foldl_cons, List.foldl_nil]
    rw [show batchStep ts (g, []) (.update "missing" {})
        = ((applyBatchOp ts g (.update "missing" {})).1,
            [] ++ (applyBatchOp ts g (.update "missing" {})).2) from rfl]
    simp only [applyBatchOp, hup, List.nil_append]
    rw [batchStep]
    simp only [applyBatchOp, applySet]
    rfl

/-- Concrete instantiation on an empty root group at timestamp `0`: the
two-operation batch of the claim's scenario. -/
theorem claim_C6_witness :
    sceneBatch 0 { root := SceneNode.node .group { id := "root" } (some []) }
        [.update "missing" {}, .set { background := some "#000" }]
      = ({ root := SceneNode.node .group { id := "root" } (some []),
            background := some "#000" },
          [.errorR "update" "Node \x22missing\x22 not found", .setR]) :=
  claim_C6.2.2 0 { root := SceneNode.node .group { id := "root" } (some []) }
    (by decide)

/-! ## Particle system (`src/scene/particles.ts`)

`Math.random()` is modelled as an indexed stream `rng : ℕ → ℚ` with an
explicit draw counter; each spawned particle draws its direction angle,
its speed, its size (only when the emitter has a `size` range) and its
colour index, in that order.  `Math.cos (degToRad d)` and
`Math.sin (degToRad d)` are abstracted as parameters
`cosD sinD : ℚ → ℚ` applied to the degree value `d`, since radians are
irrational. -/

structure QRange where
  min : ℚ
  max : ℚ
  deriving DecidableEq

structure ParticleEmitter where
  x : ℚ
  y : ℚ
  rate : ℚ
  lifetime : ℚ
  speed : QRange
  direction : QRange
  gravity : Option ℚ := none
  color : Option (String ⊕ List String) := none
  size : Option QRange := none
  deriving DecidableEq

/-- A live particle; `color` is optional because indexing an empty colour
array yields `undefined`. -/
structure Particle where
  x : ℚ
  y : ℚ
  vx : ℚ
  vy : ℚ
  age : ℚ
  lifetime : ℚ
  size : ℚ
  color : Option String
  deriving DecidableEq

/-- `rand(min, max) = min + Math.random() * (max - min)` at draw `i`. -/
def rand (rng : ℕ → ℚ) (i : ℕ) (mn mx : ℚ) : ℚ := mn + rng i * (mx - mn)

/-- JavaScript array indexing at a fractional position (`arr[Math.floor q]`):
`undefined` out of range. -/
def jsIndex (l : List String) (q : ℚ) : Option String :=
  if ⌊q⌋ < 0 then none else l.get? ⌊q⌋.toNat

/-- One loop body of `spawnParticles`: the draws for angle, speed, size
and colour index, and the particle built from them; returns the next draw
counter. -/
def spawnOne (cosD sinD : ℚ → ℚ) (rng : ℕ → ℚ) (k : ℕ) (e : ParticleEmitter) :
    Particle × ℕ :=
  let angle := rand rng k e.direction.min e.direction.max
  let speed := rand rng (k+1) e.speed.min e.speed.max
  let sz := match e.size with
    | some r => rand rng (k+2) r.min r.max
    | none => 4
  let k2 := match e.size with
    | some _ => k+3
    | none => k+2
  let colors := match e.color with
    | some (Sum.inr arr) => arr
    | some (Sum.inl s) => [s]
    | none => ["#ffffff"]
  ({ x := e.x, y := e.y, vx := cosD angle * speed, vy := sinD angle * speed,
     age := 0, lifetime := e.lifetime, size := sz,
     color := jsIndex colors (rng k2 * (colors.length : ℚ)) }, k2 + 1)

/-- The `for (let i = 0; i < count; i++)` loop of `spawnParticles`. -/
def spawnLoop (cosD sinD : ℚ → ℚ) (rng : ℕ → ℚ) (e : ParticleEmitter) :
    ℕ → ℕ → List Particle × ℕ
  | 0, k => ([], k)
  | n+1, k =>
      ((spawnOne cosD sinD rng k e).1 ::
          (spawnLoop cosD sinD rng e n (spawnOne cosD sinD rng k e).2).1,
        (spawnLoop cosD sinD rng e n (spawnOne cosD sinD rng k e).2).2)

/-- `spawnParticles(emitter, dt)`: `Math.floor(rate * (dt / 1000))` new
particles. -/
def spawnParticles (cosD sinD : ℚ → ℚ) (rng : ℕ → ℚ) (k : ℕ)
    (e : ParticleEmitter) (dt : ℚ) : List Particle × ℕ :=
  spawnLoop cosD sinD rng e (Int.floor (e.rate * (dt / 1000))).toNat k

/-- `emitters[0]?.gravity ?? 0`. -/
def gravOf (emitters : List ParticleEmitter) : ℚ :=
  (emitters.head?.bind (fun e => e.gravity)).getD 0

/-- The `map` body of `tickParticles`: advance by velocity, add the
gravity to the vertical velocity, age by `dt`. -/
def agedParticle (gravity dt : ℚ) (p : Particle) : Particle :=
  { p with x := p.x + p.vx * (dt / 1000), y := p.y + p.vy * (dt / 1000),
           vy := p.vy + gravity * (dt / 1000), age := p.age + dt }

/-- `tickParticles(particles, emitters, dt)`: age and advance every
particle, then keep those with `age < lifetime`. -/
def tickParticles (ps : List Particle) (emitters : List ParticleEmitter)
    (dt : ℚ) : List Particle :=
  (ps.map (agedParticle (gravOf emitters) dt)).filter
    (fun p => decide (p.age < p.lifetime))

/-- The spawn loop over all emitters of `tickParticleNode`
(`particles.push(...spawnParticles(emitter, dt))`). -/
def spawnAll (cosD sinD : ℚ → ℚ) (rng : ℕ → ℚ) :
    List ParticleEmitter → ℕ → ℚ → List Particle × ℕ
  | [], k, _ => ([], k)
  | e :: es, k, dt =>
      ((spawnParticles cosD sinD rng k e dt).1 ++
          (spawnAll cosD sinD rng es (spawnParticles cosD sinD rng k e dt).2 dt).1,
        (spawnAll cosD sinD rng es (spawnParticles cosD sinD rng k e dt).2 dt).2)

/-- The particle-relevant fields of a `ParticlesNode`. -/
structure PartNode where
  emitters : List ParticleEmitter
  maxParticles : Option ℚ := none
  particles : Option (List Particle) := none
  deriving DecidableEq

/-- `tickParticleNode(node, dt)`: tick the existing particles, spawn from
every emitter, then cap via `slice(length - max)` (whose fractional start
index JavaScript truncates). -/
def tickParticleNode (cosD sinD : ℚ → ℚ) (rng : ℕ → ℚ) (k : ℕ)
    (node : PartNode) (dt : ℚ) : List Particle × ℕ :=
  let mx := node.maxParticles.getD 200
  let ps2 := tickParticles (node.particles.getD []) node.emitters dt ++
    (spawnAll cosD sinD rng node.emitters k dt).1
  (if (ps2.length : ℚ) > mx
   then ps2.drop (qtrunc ((ps2.length : ℚ) - mx)).toNat
   else ps2,
    (spawnAll cosD sinD rng node.emitters k dt).2)

/-- The spawn loop emits one particle per iteration. -/
theorem spawnLoop_length (cosD sinD : ℚ → ℚ) (rng : ℕ → ℚ)
    (e : ParticleEmitter) : ∀ (n k : ℕ),
    (spawnLoop cosD sinD rng e n k).1.length = n
  | 0, _ => rfl
  | n+1, k => by
      simp [spawnLoop, spawnLoop_length cosD sinD rng e n]

/-- Every particle the spawn loop emits is built by `spawnOne` at some
draw position. -/
theorem spawnLoop_mem (cosD sinD : ℚ → ℚ) (rng : ℕ → ℚ)
    (e : ParticleEmitter) : ∀ (n k : ℕ) (p : Particle),
    p ∈ (spawnLoop cosD sinD rng e n k).1 →
    ∃ j, p = (spawnOne cosD sinD rng j e).1
  | 0, _, p, h => by simp [spawnLoop] at h
  | n+1, k, p, h => by
      rw [spawnLoop] at h
      rcases List.mem_cons.mp h with h1 | h1
      · exact ⟨k, h1⟩
      · exact spawnLoop_mem cosD sinD rng e n _ p h1

/-- `rand` stays inside a nonempty range when the draw is in `[0, 1)`. -/
theorem rand_bounds (rng : ℕ → ℚ) (i : ℕ) (mn mx : ℚ) (h0 : 0 ≤ rng i)
    (h1 : rng i < 1) (hle : mn ≤ mx) :
    mn ≤ rand rng i mn mx ∧ rand rng i mn mx ≤ mx := by
  unfold rand
  constructor <;> nlinarith

/-- C4: one particle tick.  (i) A particle is in `tickParticles`'s output
exactly when it is some input particle advanced by its velocity, with the
first emitter's gravity added to the vertical velocity and its age
increased by `dt`, whose new age stays below its lifetime.  (ii) Each
emitter spawns exactly `floor(rate * dt / 1000)` particles.  (iii) When
every random draw lies in `[0, 1)` and the emitter's ranges are nonempty,
every spawned particle starts at the emitter position with age `0`, the
emitter's lifetime, and velocity decomposed from a direction angle inside
`[direction.min, direction.max]` degrees and a speed inside
`[speed.min, speed.max]`.  (iv) With the cap `maxParticles = m` (default
200), the final list is a suffix of ticked-then-spawned (so the oldest
surplus particles are evicted first) of length `min total m`. -/
theorem claim_C4 :
    (∀ (ps : List Particle) (emitters : List ParticleEmitter) (dt : ℚ)
       (p2 : Particle),
      p2 ∈ tickParticles ps emitters dt ↔
        ∃ p ∈ ps, p2 = agedParticle (gravOf emitters) dt p ∧
          p.age + dt < p.lifetime)
    ∧
    (∀ (cosD sinD : ℚ → ℚ) (rng : ℕ → ℚ) (k : ℕ) (e : ParticleEmitter) (dt : ℚ),
      (spawnParticles cosD sinD rng k e dt).1.length
        = (Int.floor (e.rate * (dt / 1000))).toNat)
    ∧
    (∀ (cosD sinD : ℚ → ℚ) (rng : ℕ → ℚ) (k : ℕ) (e : ParticleEmitter) (dt : ℚ),
      (∀ i, 0 ≤ rng i ∧ rng i < 1) →
      e.direction.min ≤ e.direction.max →
      e.speed.min ≤ e.speed.max →
      ∀ p ∈ (spawnParticles cosD sinD rng k e dt).1,
        p.x = e.x ∧ p.y = e.y ∧ p.age = 0 ∧ p.lifetime = e.lifetime ∧
        ∃ θ s, e.direction.min ≤ θ ∧ θ ≤ e.direction.max ∧
          e.speed.min ≤ s ∧ s ≤ e.speed.max ∧
          p.vx = cosD θ * s ∧ p.vy = sinD θ * s)
    ∧
    (∀ (cosD sinD : ℚ → ℚ) (rng : ℕ → ℚ) (k : ℕ) (node : PartNode) (dt : ℚ)
       (m : ℕ),
      node.maxParticles.getD 200 = (m : ℚ) →
      (tickParticleNode cosD sinD rng k node dt).1 <:+
          (tickParticles (node.particles.getD []) node.emitters dt ++
            (spawnAll cosD sinD rng node.emitters k dt).1) ∧
      (tickParticleNode cosD sinD rng k node dt).1.length =
        min (tickParticles (node.particles.getD []) node.emitters dt ++
            (spawnAll cosD sinD rng node.emitters k dt).1).length m) := by
  refine ⟨?_, ?_, ?_, ?_⟩
  · intro ps emitters dt p2
    simp only [tickParticles, List.mem_filter, List.mem_map, decide_eq_true_eq]
    constructor
    · rintro ⟨⟨p, hp, rfl⟩, h2⟩
      refine ⟨p, hp, rfl, ?_⟩
      simpa [agedParticle] using h2
    · rintro ⟨p, hp, rfl, h2⟩
      exact ⟨⟨p, hp, rfl⟩, by simpa [agedParticle] using h2⟩
  · intro cosD sinD rng k e dt
    rw [spawnParticles]
    exact spawnLoop_length cosD sinD rng e _ k
  · intro cosD sinD rng k e dt hr hd hs p hp
    rw [spawnParticles] at hp
    obtain ⟨j, rfl⟩ := spawnLoop_mem cosD sinD rng e _ k p hp
    refine ⟨rfl, rfl, rfl, rfl,
      rand rng j e.direction.min e.direction.max,
      rand rng (j+1) e.speed.min e.speed.max,
      (rand_bounds rng j _ _ (hr j).1 (hr j).2 hd).1,
      (rand_bounds rng j _ _ (hr j).1 (hr j).2 hd).2,
      (rand_bounds rng (j+1) _ _ (hr (j+1)).1 (hr (j+1)).2 hs).1,
      (rand_bounds rng (j+1) _ _ (hr (j+1)).1 (hr (j+1)).2 hs).2,
      rfl, rfl⟩
  · intro cosD sinD rng k node dt m hm
    simp only [tickParticleNode, hm]
    generalize tickParticles (node.particles.getD []) node.emitters dt ++
      (spawnAll cosD sinD rng node.emitters k dt).1 = L
    by_cases hgt : ((L.length : ℚ) > (m : ℚ))
    · have hmn : m < L.length := by exact_mod_cast hgt
      have hcast : ((L.length : ℚ) - (m : ℚ)) = ((L.length - m : ℕ) : ℚ) := by
        push_cast [Nat.cast_sub hmn.le]
        ring
      have hdrop : (qtrunc ((L.length : ℚ) - (m : ℚ))).toNat = L.length - m := by
        rw [hcast, qtrunc, if_pos (by positivity), Int.floor_natCast]
        omega
      rw [if_pos hgt, hdrop]
      exact ⟨List.drop_suffix _ _, by rw [List.length_drop]; omega⟩
    · have hmn : L.length ≤ m := by
        have h2 : (L.length : ℚ) ≤ (m : ℚ) := not_lt.mp hgt
        exact_mod_cast h2
      rw [if_neg hgt]
      exact ⟨List.suffix_refl _, by omega⟩

/-- A demonstration emitter: two particles per second, speed in `[3, 5]`,
direction in `[0, 90]` degrees. -/
def emDemo : ParticleEmitter :=
  { x := 0, y := 0, rate := 2, lifetime := 1000, speed := ⟨3, 5⟩, direction := ⟨0, 90⟩ }

/-- A long-lived stationary particle. -/
def pDemo : Particle :=
  { x := 0, y := 0, vx := 0, vy := 0, age := 0, lifetime := 2000, size := 4, color := none }

/-- A particles node with three live particles and a cap of two. -/
def nodeDemo : PartNode :=
  { emitters := [], maxParticles := some 2, particles := some [pDemo, pDemo, pDemo] }

/-- Concrete instantiation of the spawn-range and cap clauses: the demo
emitter at `dt = 1000` with the constant-zero draw stream, and the capped
demo node. -/
theorem claim_C4_witness :
    (∀ p ∈ (spawnParticles id id (fun _ => 0) 0 emDemo 1000).1,
      p.x = emDemo.x ∧ p.y = emDemo.y ∧ p.age = 0 ∧ p.lifetime = emDemo.lifetime ∧
      ∃ θ s, emDemo.direction.min ≤ θ ∧ θ ≤ emDemo.direction.max ∧
        emDemo.speed.min ≤ s ∧ s ≤ emDemo.speed.max ∧
        p.vx = id θ * s ∧ p.vy = id θ * s)
    ∧
    ((tickParticleNode id id (fun _ => 0) 0 nodeDemo 1000).1 <:+
        (tickParticles (nodeDemo.particles.getD []) nodeDemo.emitters 1000 ++
          (spawnAll id id (fun _ => 0) nodeDemo.emitters 0 1000).1) ∧
      (tickParticleNode id id (fun _ => 0) 0 nodeDemo 1000).1.length =
        min (tickParticles (nodeDemo.particles.getD []) nodeDemo.emitters 1000 ++
          (spawnAll id id (fun _ => 0) nodeDemo.emitters 0 1000).1).length 2) :=
  ⟨claim_C4.2.2.1 id id (fun _ => 0) 0 emDemo 1000
      (fun _ => ⟨le_rfl, show (0:ℚ) < 1 by decide⟩) (by decide) (by decide),
    claim_C4.2.2.2 id id (fun _ => 0) 0 nodeDemo 1000 2 (by decide)⟩

/-! ## The Pixi reconciler (`src/scene/renderer-pixi.ts`)

Display objects live in a heap of numeric handles.  `__vv` metadata,
the `nodeId → object` map, child lists and parent links are modelled
explicitly; `created` and `destroyed` count `createDisplayObject`
allocations and `removeDisplayObject` destructions of tracked objects.
`JSON.stringify` snapshots are modelled by the snapshotted value itself
(stringification is injective on the value domain).  `applyTransform`,
`applyStyle` and `setupInteraction` mutate only rendering attributes and
are omitted.  The per-tile / per-particle anonymous graphics of
tilemap/particle containers carry no metadata and are not modelled
individually.  `removeDisplayObject` recurses through live child arrays;
the explicit fuel bounds that recursion, and every call site passes a
bound sufficient for any acyclic heap (on a cyclic heap the source would
not terminate either). -/

/-- Lookup in an association list (`Map.get`). -/
def aGet {κ α : Type} [DecidableEq κ] (m : List (κ × α)) (k : κ) : Option α :=
  (m.find? (fun p => p.1 = k)).map (fun p => p.2)

/-- Insertion-order-preserving update (`Map.set`). -/
def aSet {κ α : Type} [DecidableEq κ] : List (κ × α) → κ → α → List (κ × α)
  | [], k, v => [(k, v)]
  | p :: ps, k, v => if p.1 = k then (k, v) :: ps else p :: aSet ps k v

/-- Deletion (`Map.delete`). -/
def aDel {κ α : Type} [DecidableEq κ] (m : List (κ × α)) (k : κ) : List (κ × α) :=
  m.filter (fun p => ¬ (p.1 = k))

/-- The `__vv` metadata attached to display objects. -/
structure RMeta where
  nodeId : String
  nodeType : NodeType
  snapshot : SceneNode
  deriving DecidableEq

/-- A display object: metadata, child handles in order, parent handle. -/
structure DObj where
  meta : Option RMeta := none
  kids : List ℕ := []
  parent : Option ℕ := none
  deriving DecidableEq

/-- The renderer state: the object heap, the context's `nodeMap`, the
next fresh handle and the create/destroy counters. -/
structure RState where
  heap : List (ℕ × DObj) := []
  nodeMap : List (String × ℕ) := []
  next : ℕ := 0
  created : ℕ := 0
  destroyed : ℕ := 0
  deriving DecidableEq

/-- `nodeSnapshot`: the node itself, with the `children` key dropped for
groups (children are diffed recursively). -/
def nodeSnapshot (n : SceneNode) : SceneNode :=
  if n.ntype = .group then .node n.ntype n.props none else n

/-- `removeFromParent()`: erase the handle from its parent's child list
and clear the parent link. -/
def detach (st : RState) (oid : ℕ) : RState :=
  match aGet st.heap oid with
  | some obj =>
      match obj.parent with
      | some pid =>
          let st1 := match aGet st.heap pid with
            | some pobj => { st with heap := aSet st.heap pid { pobj with kids := pobj.kids.erase oid } }
            | none => st
          match aGet st1.heap oid with
          | some obj2 => { st1 with heap := aSet st1.heap oid { obj2 with parent := none } }
          | none => st1
      | none => st
  | none => st

/-- Pixi `addChild`: detach from any current parent, append to the new
parent's child list and set the parent link. -/
def addChild (st : RState) (pid oid : ℕ) : RState :=
  let st1 := detach st oid
  let st2 := match aGet st1.heap pid with
    | some pobj => { st1 with heap := aSet st1.heap pid { pobj with kids := pobj.kids ++ [oid] } }
    | none => st1
  match aGet st2.heap oid with
  | some obj => { st2 with heap := aSet st2.heap oid { obj with parent := some pid } }
  | none => st2

/-- `setMeta` on an existing heap object. -/
def metaSet (st : RState) (oid : ℕ) (m : RMeta) : RState :=
  match aGet st.heap oid with
  | some obj => { st with heap := aSet st.heap oid { obj with meta := some m } }
  | none => st

mutual

/-- `removeDisplayObject(obj, nodeId, ctx)`: recursively remove the
tracked children (back to front), detach, destroy, and delete the PASSED
`nodeId` from the node map — which need not be the object's own meta id. -/
def removeDO : ℕ → Option ℕ → String → RState → RState
  | 0, _, _, st => st
  | _ + 1, none, _, st => st
  | fuel + 1, some oid, nodeId, st =>
      match aGet st.heap oid with
      | none => { st with nodeMap := aDel st.nodeMap nodeId }
      | some obj =>
          let st1 := removeKidsDO fuel obj.kids.reverse st
          let st2 := detach st1 oid
          { st2 with heap := aDel st2.heap oid,
                     destroyed := st2.destroyed + 1,
                     nodeMap := aDel st2.nodeMap nodeId }

/-- The backwards loop over `obj.children`, removing each child that
carries metadata. -/
def removeKidsDO : ℕ → List ℕ → RState → RState
  | 0, _, st => st
  | _ + 1, [], st => st
  | fuel + 1, kid :: ks, st =>
      match (aGet st.heap kid).bind (fun c => c.meta) with
      | some m => removeKidsDO fuel ks (removeDO fuel (some kid) m.nodeId st)
      | none => removeKidsDO fuel ks st

end

mutual

/-- `createDisplayObject(node, ctx)`: allocate a fresh display object;
for a group, recursively create the children, attach their metadata and
register them in the node map. -/
def createDO : SceneNode → RState → ℕ × RState
  | n, st =>
      let oid := st.next
      let st1 : RState := { st with next := st.next + 1, created := st.created + 1, heap := aSet st.heap oid {} }
      match n with
      | .node .group _ (some cs) => (oid, createKidsDO cs oid st1)
      | _ => (oid, st1)

/-- The group branch's loop over `n.children`. -/
def createKidsDO : List SceneNode → ℕ → RState → RState
  | [], _, st => st
  | c :: cs, pid, st =>
      let cid := (createDO c st).1
      let st1 := (createDO c st).2
      let st2 := metaSet st1 cid ⟨c.id, c.ntype, nodeSnapshot c⟩
      let st3 := { st2 with nodeMap := aSet st2.nodeMap c.id cid }
      createKidsDO cs pid (addChild st3 pid cid)

end

/-- The create flow at the end of `syncNode`: create the display object,
attach metadata, register the handle and add it to the parent. -/
def syncCreate (n : SceneNode) (parentId : ℕ) (snap : SceneNode) (st : RState) : RState :=
  let oid := (createDO n st).1
  let st1 := (createDO n st).2
  let st2 := metaSet st1 oid ⟨n.id, n.ntype, snap⟩
  let st3 := { st2 with nodeMap := aSet st2.nodeMap n.id oid }
  addChild st3 parentId oid

/-- The removal scan of `syncGroupChildren`: walk the container's children
back to front, collect the meta node ids that are not among the current
child ids, and remove each via the node map (`removeDisplayObject(
ctx.nodeMap.get(id), id, ctx)` — the mapped object, not the scanned one). -/
def scanRemove (cs : List SceneNode) (containerId : ℕ) (st : RState) : RState :=
  let childIds := cs.map SceneNode.id
  let kids := ((aGet st.heap containerId).getD {}).kids
  let toRemove := kids.reverse.filterMap (fun kid =>
      ((aGet st.heap kid).bind (fun c => c.meta)).bind
        (fun m => if m.nodeId ∈ childIds then none else some m.nodeId))
  toRemove.foldl (fun s id => removeDO (2 * s.heap.length + 2) (aGet s.nodeMap id) id s) st

/-- The z-order fixup after syncing one child: when the mapped object sits
under this container at a different index, move it (`setChildIndex` with
the clamped target index). -/
def zOrderFix (st : RState) (containerId : ℕ) (childId : String) (i : ℕ) : RState :=
  match aGet st.nodeMap childId with
  | some cid =>
      match aGet st.heap cid with
      | some cobj =>
          if cobj.parent = some containerId then
            let kids := ((aGet st.heap containerId).getD {}).kids
            if kids.indexOf cid ≠ i ∧ i < kids.length then
              match aGet st.heap containerId with
              | some pobj =>
                  let ks2 := pobj.kids.erase cid
                  let t := min i (kids.length - 1)
                  { st with heap := aSet st.heap containerId { pobj with kids := ks2.take t ++ cid :: ks2.drop t } }
              | none => st
            else st
          else st
      | none => st
  | none => st

mutual

/-- `syncNode(node, parent, ctx)`: skip when the snapshot is unchanged
(non-groups), recreate on a type change or a data change, recurse into
children for groups, create when untracked. -/
def syncNode : SceneNode → ℕ → RState → RState
  | .node t p ocs, parentId, st =>
      let snap := nodeSnapshot (.node t p ocs)
      match aGet st.nodeMap p.id with
      | some eid =>
          match (aGet st.heap eid).bind (fun o => o.meta) with
          | some m =>
              if m.snapshot = snap ∧ t ≠ .group then st
              else if m.nodeType ≠ t then
                syncCreate (.node t p ocs) parentId snap (removeDO (2 * st.heap.length + 2) (some eid) p.id st)
              else if t = .group then
                match ocs with
                | some cs =>
                    syncLoop cs eid 0 (scanRemove cs eid (metaSet st eid ⟨p.id, t, snap⟩))
                | none =>
                    scanRemove [] eid (metaSet st eid ⟨p.id, t, snap⟩)
              else
                syncCreate (.node t p ocs) parentId snap (removeDO (2 * st.heap.length + 2) (some eid) p.id st)
          | none =>
              if t = .group then
                match ocs with
                | some cs =>
                    syncLoop cs eid 0 (scanRemove cs eid (metaSet st eid ⟨p.id, t, snap⟩))
                | none =>
                    scanRemove [] eid (metaSet st eid ⟨p.id, t, snap⟩)
              else
                syncCreate (.node t p ocs) parentId snap (removeDO (2 * st.heap.length + 2) (some eid) p.id st)
      | none => syncCreate (.node t p ocs) parentId snap st

/-- The add/update loop of `syncGroupChildren`: sync each child in order,
fix its z-index, continue. -/
def syncLoop : List SceneNode → ℕ → ℕ → RState → RState
  | [], _, _, st => st
  | c :: cs, containerId, i, st =>
      syncLoop cs containerId (i + 1) (zOrderFix (syncNode c containerId st) containerId c.id i)

end

/-- `syncGroupChildren(groupNode, container, ctx)`: the removal scan, then
the add/update loop. -/
def syncChildrenTop (cs : List SceneNode) (containerId : ℕ) (st : RState) : RState :=
  syncLoop cs containerId 0 (scanRemove cs containerId st)

/-- `syncScene`'s reconciliation step: sync the root group's children into
the root container, which is modelled as heap handle `0`. -/
def syncDoc (cs : List SceneNode) (st : RState) : RState :=
  syncChildrenTop cs 0 st

mutual

/-- A previous-state object faithfully mirrors a document node: the node
map points at it, it carries the node's id, variant and snapshot, it sits
under the given parent, and (for groups) its children mirror the node's
children in order with no duplicate handles. -/
def mirrorsNode (st : RState) (pid : ℕ) : SceneNode → ℕ → Bool
  | .node t p ocs, oid =>
      match aGet st.heap oid, aGet st.nodeMap p.id with
      | some obj, some mid =>
          decide (mid = oid) &&
          decide (obj.meta = some ⟨p.id, t, nodeSnapshot (.node t p ocs)⟩) &&
          decide (obj.parent = some pid) &&
          (if t = .group then
            decide obj.kids.Nodup &&
            (match ocs with
             | some cs => mirrorsList st oid cs obj.kids
             | none => decide (obj.kids = []))
           else true)
      | _, _ => false

/-- Pointwise mirroring of a child list against a handle list. -/
def mirrorsList (st : RState) (cid : ℕ) : List SceneNode → List ℕ → Bool
  | [], ks => decide (ks = [])
  | c :: cs, ks =>
      match ks with
      | [] => false
      | k :: ks2 => mirrorsNode st cid c k && mirrorsList st cid cs ks2

end

/-- Re-writing an association entry with the value it already holds is the
identity. -/
theorem aSet_self {κ α : Type} [DecidableEq κ] :
    ∀ (m : List (κ × α)) (k : κ) (v : α), aGet m k = some v → aSet m k v = m
  | [], k, v, h => by simp [aGet] at h
  | (j, b) :: ps, k, v, h => by
      by_cases hj : j = k
      · subst hj
        rw [aSet, if_pos rfl]
        have hb : b = v := by
          simp [aGet, List.find?] at h
          exact h
        rw [hb]
      · rw [aSet, if_neg hj]
        have h2 : aGet ps k = some v := by
          simpa [aGet, List.find?, hj] using h
        rw [aSet_self ps k v h2]

/-- `setMeta` with the metadata the object already carries is the
identity. -/
theorem metaSet_self (st : RState) (oid : ℕ) (m : RMeta) (obj : DObj)
    (hobj : aGet st.heap oid = some obj) (hm : obj.meta = some m) :
    metaSet st oid m = st := by
  unfold metaSet
  rw [hobj]
  dsimp only
  have he : { obj with meta := some m } = obj := by
    cases obj
    cases hm
    rfl
  rw [he, aSet_self st.heap oid obj hobj]

/-- Unpacking the non-recursive facts of `mirrorsNode`. -/
theorem mirrorsNode_fields {st : RState} {pid : ℕ} {n : SceneNode} {oid : ℕ}
    (h : mirrorsNode st pid n oid = true) :
    ∃ obj, aGet st.heap oid = some obj ∧ aGet st.nodeMap n.id = some oid ∧
      obj.meta = some ⟨n.id, n.ntype, nodeSnapshot n⟩ ∧ obj.parent = some pid := by
  cases n with
  | node t p ocs =>
      rw [mirrorsNode] at h
      cases hh : aGet st.heap oid with
      | none =>
          rw [hh] at h
          cases hm : aGet st.nodeMap p.id <;> rw [hm] at h <;> simp at h
      | some obj =>
          cases hm : aGet st.nodeMap p.id with
          | none => rw [hh, hm] at h; simp at h
          | some mid =>
              rw [hh, hm] at h
              dsimp only at h
              rw [Bool.and_eq_true, Bool.and_eq_true, Bool.and_eq_true] at h
              obtain ⟨⟨⟨h1, h2⟩, h3⟩, _⟩ := h
              exact ⟨obj, rfl, (of_decide_eq_true h1) ▸ hm,
                of_decide_eq_true h2, of_decide_eq_true h3⟩

/-- Unpacking the child-list facts of `mirrorsNode` on a group. -/
theorem mirrorsNode_group_kids {st : RState} {pid : ℕ} {p : NodeData}
    {cs : List SceneNode} {oid : ℕ}
    (h : mirrorsNode st pid (.node .group p (some cs)) oid = true) :
    ∃ obj, aGet st.heap oid = some obj ∧ obj.kids.Nodup ∧
      mirrorsList st oid cs obj.kids = true := by
  rw [mirrorsNode] at h
  cases hh : aGet st.heap oid with
  | none =>
      rw [hh] at h
      cases hm : aGet st.nodeMap p.id <;> rw [hm] at h <;> simp at h
  | some obj =>
      cases hm : aGet st.nodeMap p.id with
      | none => rw [hh, hm] at h; simp at h
      | some mid =>
          rw [hh, hm] at h
          dsimp only at h
          rw [Bool.and_eq_true, Bool.and_eq_true, Bool.and_eq_true] at h
          have hD := h.2
          rw [if_pos rfl, Bool.and_eq_true] at hD
          exact ⟨obj, rfl, of_decide_eq_true hD.1, hD.2⟩

/-- Decomposing `mirrorsList` on a nonempty child list. -/
theorem mirrorsList_cons {st : RState} {cid : ℕ} {c : SceneNode}
    {cs : List SceneNode} {ks : List ℕ}
    (h : mirrorsList st cid (c :: cs) ks = true) :
    ∃ k ks2, ks = k :: ks2 ∧ mirrorsNode st cid c k = true ∧
      mirrorsList st cid cs ks2 = true := by
  cases ks with
  | nil => rw [mirrorsList] at h; simp at h
  | cons k ks2 =>
      rw [mirrorsList] at h
      simp only [Bool.and_eq_true] at h
      exact ⟨k, ks2, rfl, h.1, h.2⟩

/-- Every mirrored handle holds an object whose metadata names the
corresponding child. -/
theorem mirrorsList_kid {st : RState} {cid : ℕ} :
    ∀ (cs : List SceneNode) (ks : List ℕ),
    mirrorsList st cid cs ks = true → ∀ k ∈ ks, ∃ c ∈ cs, ∃ obj,
      aGet st.heap k = some obj ∧ obj.meta = some ⟨c.id, c.ntype, nodeSnapshot c⟩
  | [], ks, h, k, hk => by
      rw [mirrorsList] at h
      simp only [decide_eq_true_eq] at h
      subst h
      cases hk
  | c :: cs, ks, h, k, hk => by
      obtain ⟨k1, ks2, rfl, h1, h2⟩ := mirrorsList_cons h
      rcases List.mem_cons.mp hk with rfl | hk2
      · obtain ⟨obj, hobj, _, hmeta, _⟩ := mirrorsNode_fields h1
        exact ⟨c, List.mem_cons_self _ _, obj, hobj, hmeta⟩
      · obtain ⟨c2, hc2, obj, hobj, hmeta⟩ := mirrorsList_kid cs ks2 h2 k hk2
        exact ⟨c2, List.mem_cons_of_mem _ hc2, obj, hobj, hmeta⟩

/-- The removal scan is the identity when every container child's
metadata names a current document child. -/
theorem scanRemove_id (cs : List SceneNode) (cid : ℕ) (st : RState) (cobj : DObj)
    (hc : aGet st.heap cid = some cobj)
    (hk : ∀ k ∈ cobj.kids, ∃ c ∈ cs, ∃ obj, aGet st.heap k = some obj ∧
      obj.meta = some ⟨c.id, c.ntype, nodeSnapshot c⟩) :
    scanRemove cs cid st = st := by
  unfold scanRemove
  rw [hc]
  dsimp only [Option.getD_some]
  have htr : (cobj.kids.reverse.filterMap fun kid =>
      ((aGet st.heap kid).bind (fun c => c.meta)).bind
        (fun m => if m.nodeId ∈ cs.map SceneNode.id then none
                  else some m.nodeId)) = [] := by
    rw [List.filterMap_eq_nil_iff]
    intro k hk2
    obtain ⟨c, hcm, obj, hobj, hmeta⟩ := hk k (List.mem_reverse.mp hk2)
    rw [hobj]
    simp only [Option.some_bind, hmeta]
    rw [if_pos (List.mem_map_of_mem SceneNode.id hcm)]
  rw [htr]
  rfl

/-- Unpacking a mirrored group that carries no child list: its container
is empty. -/
theorem mirrorsNode_group_nil {st : RState} {pid : ℕ} {p : NodeData} {oid : ℕ}
    (h : mirrorsNode st pid (.node .group p none) oid = true) :
    ∃ obj, aGet st.heap oid = some obj ∧ obj.kids = [] := by
  rw [mirrorsNode] at h
  cases hh : aGet st.heap oid with
  | none =>
      rw [hh] at h
      cases hm : aGet st.nodeMap p.id <;> rw [hm] at h <;> simp at h
  | some obj =>
      cases hm : aGet st.nodeMap p.id with
      | none => rw [hh, hm] at h; simp at h
      | some mid =>
          rw [hh, hm] at h
          dsimp only at h
          rw [Bool.and_eq_true, Bool.and_eq_true, Bool.and_eq_true] at h
          have hD := h.2
          rw [if_pos rfl, Bool.and_eq_true] at hD
          exact ⟨obj, rfl, of_decide_eq_true hD.2⟩

/-- The z-order fixup is the identity when the mapped child already sits
under the container at the expected index. -/
theorem zOrderFix_id (st : RState) (cid : ℕ) (childId : String) (i : ℕ)
    (k : ℕ) (obj cobj : DObj) (ks : List ℕ)
    (hm : aGet st.nodeMap childId = some k)
    (hk : aGet st.heap k = some obj)
    (hp : obj.parent = some cid)
    (hc : aGet st.heap cid = some cobj)
    (hnd : cobj.kids.Nodup)
    (hdrop : cobj.kids.drop i = k :: ks) :
    zOrderFix st cid childId i = st := by
  have hlen : i < cobj.kids.length := by
    by_contra hcon
    rw [List.drop_eq_nil_of_le (not_lt.mp hcon)] at hdrop
    cases hdrop
  have hidx : cobj.kids.indexOf k = i := by
    have hts : cobj.kids = cobj.kids.take i ++ k :: ks := by
      conv_lhs => rw [← List.take_append_drop i cobj.kids]
      rw [hdrop]
    have hnd2 := hnd
    rw [hts] at hnd2
    obtain ⟨_, _, hdisj⟩ := List.nodup_append.mp hnd2
    have hnotin : k ∉ cobj.kids.take i :=
      fun hmem2 => hdisj hmem2 (List.mem_cons_self _ _)
    have hlentake : (cobj.kids.take i).length = i := by
      rw [List.length_take]
      omega
    rw [hts, List.indexOf_append_of_not_mem hnotin, List.indexOf_cons_self,
      hlentake]
    omega
  unfold zOrderFix
  rw [hm]
  dsimp only
  rw [hk]
  dsimp only
  rw [if_pos hp, hc]
  dsimp only [Option.getD_some]
  rw [if_neg (by simp [hidx])]

/-- `syncNode` on a mirrored node reduces to the group-children loop (or
to an immediate skip): the snapshot matches, the variant matches, the
metadata write and the removal scan are identities. -/
theorem syncNode_mirrors_aux (t : NodeType) (p : NodeData)
    (ocs : Option (List SceneNode)) (pid : ℕ) (st : RState) (oid : ℕ)
    (h : mirrorsNode st pid (.node t p ocs) oid = true)
    (hrec : ∀ cs, ocs = some cs → t = NodeType.group → syncLoop cs oid 0 st = st) :
    syncNode (.node t p ocs) pid st = st := by
  obtain ⟨obj, hh, hm, hmeta, hpar⟩ := mirrorsNode_fields h
  have hm' : aGet st.nodeMap p.id = some oid := hm
  have hmeta' : obj.meta = some ⟨p.id, t, nodeSnapshot (.node t p ocs)⟩ := hmeta
  rw [syncNode.eq_1, hm']
  dsimp only
  rw [hh]
  dsimp only [Option.some_bind]
  rw [hmeta']
  dsimp only
  by_cases hg : t = NodeType.group
  · subst hg
    rw [if_neg (by simp)]
    rw [if_neg (by simp)]
    rw [if_pos rfl]
    cases ocs with
    | some cs =>
        dsimp only
        obtain ⟨obj2, hh2, hnd, hml⟩ := mirrorsNode_group_kids h
        have hoo : obj2 = obj := by
          rw [hh] at hh2
          exact (Option.some.inj hh2).symm
        subst hoo
        rw [metaSet_self st oid _ obj2 hh hmeta']
        rw [scanRemove_id cs oid st obj2 hh (mirrorsList_kid cs obj2.kids hml)]
        exact hrec cs rfl rfl
    | none =>
        dsimp only
        obtain ⟨obj2, hh2, hnil⟩ := mirrorsNode_group_nil h
        have hoo : obj2 = obj := by
          rw [hh] at hh2
          exact (Option.some.inj hh2).symm
        subst hoo
        rw [metaSet_self st oid _ obj2 hh hmeta']
        exact scanRemove_id [] oid st obj2 hh
          (fun k hkm => by rw [hnil] at hkm; cases hkm)
  · rw [if_pos ⟨rfl, hg⟩]

/-- One loop iteration on a mirrored child is the identity. -/
theorem syncLoop_mirrors_aux (c : SceneNode) (cs : List SceneNode)
    (cid i : ℕ) (st : RState)
    (hn : syncNode c cid st = st)
    (hz : zOrderFix st cid c.id i = st)
    (hrest : syncLoop cs cid (i + 1) st = st) :
    syncLoop (c :: cs) cid i st = st := by
  rw [syncLoop, hn, hz, hrest]

mutual

/-- `syncNode` leaves a faithfully mirrored state untouched. -/
theorem syncNode_mirrors : ∀ (n : SceneNode) (pid : ℕ) (st : RState) (oid : ℕ),
    mirrorsNode st pid n oid = true → syncNode n pid st = st
  | .node t p ocs, pid, st, oid, h =>
      syncNode_mirrors_aux t p ocs pid st oid h (fun cs hocs hg => by
        subst hocs
        subst hg
        obtain ⟨obj2, hh2, hnd, hml⟩ := mirrorsNode_group_kids h
        exact syncLoop_mirrors cs oid 0 st obj2 hh2 hnd
          (by rw [List.drop_zero]; exact hml))
termination_by n _ _ _ _ => (sizeOf n, 0)
decreasing_by
  refine Prod.Lex.left _ _ ?_
  have hocs : ocs = some cs := by assumption
  subst hocs
  simp
  omega

/-- The add/update loop leaves a faithfully mirrored state untouched:
each child is skipped and already sits at its index. -/
theorem syncLoop_mirrors : ∀ (cs : List SceneNode) (cid : ℕ) (i : ℕ)
    (st : RState) (cobj : DObj),
    aGet st.heap cid = some cobj → cobj.kids.Nodup →
    mirrorsList st cid cs (cobj.kids.drop i) = true →
    syncLoop cs cid i st = st
  | [], _, _, _, _, _, _, _ => by rw [syncLoop]
  | c :: cs, cid, i, st, cobj, hc, hnd, hml => by
      obtain ⟨k, ks2, hdrop, h1, h2⟩ := mirrorsList_cons hml
      obtain ⟨obj, hh, hm, hmeta, hpar⟩ := mirrorsNode_fields h1
      have hdd : cobj.kids.drop (i+1) = ks2 := by
        rw [← List.tail_drop, hdrop]
        rfl
      exact syncLoop_mirrors_aux c cs cid i st
        (syncNode_mirrors c cid st k h1)
        (zOrderFix_id st cid c.id i k obj cobj ks2 hm hh hpar hc hnd hdrop)
        (syncLoop_mirrors cs cid (i+1) st cobj hc hnd (hdd ▸ h2))
termination_by cs _ _ _ _ _ _ _ => (sizeOf cs, 1)
decreasing_by
  · exact Prod.Lex.left _ _ (by simp; omega)
  · exact Prod.Lex.left _ _ (by simp)

end

/-- An empty group `"g"` for the reconciliation counterexample. -/
def nodeG3 : SceneNode := .node .group { id := "g" } (some [])

/-- A rect `"z"` for the reconciliation counterexample. -/
def nodeZ3 : SceneNode := .node .rect { id := "z" } none

/-- An adversarial previous state: the tracked container of group `"g"`
still holds a stale child whose metadata names `"z"`, while the node map
points `"z"` at a different (correct) object under the root. -/
def stateC3 : RState :=
  { heap := [(0, { kids := [1, 3] }),
             (1, { meta := some ⟨"g", .group, nodeSnapshot nodeG3⟩, kids := [2], parent := some 0 }),
             (2, { meta := some ⟨"z", .rect, nodeZ3⟩, parent := some 1 }),
             (3, { meta := some ⟨"z", .rect, nodeSnapshot nodeZ3⟩, parent := some 0 })],
    nodeMap := [("g", 1), ("z", 3)], next := 10 }

/-- C3, counterexample: reconciling the document `[group "g" (no
children), rect "z"]` once against `stateC3` and then again against the
resulting object map still creates one display object and destroys one on
the second pass — the stale child inside `"g"`'s container makes every
pass destroy the object the node map assigns to `"z"` and recreate it.
Re-reconciliation is not a no-op for arbitrary previous object maps. -/
theorem claim_C3_counterexample :
    ((syncDoc [nodeG3, nodeZ3] (syncDoc [nodeG3, nodeZ3] stateC3)).created,
     (syncDoc [nodeG3, nodeZ3] (syncDoc [nodeG3, nodeZ3] stateC3)).destroyed)
    = ((syncDoc [nodeG3, nodeZ3] stateC3).created + 1,
       (syncDoc [nodeG3, nodeZ3] stateC3).destroyed + 1) := by
  decide

/-- C3, amended: reconciliation is a no-op — zero creations and zero
destructions, indeed an unchanged renderer state — whenever the previous
object map faithfully mirrors the document: the container's children
correspond to the document children in order without duplicate handles,
each carrying the matching id, variant tag and snapshot under the right
parent, recursively.  (The state a successful reconciliation of the same
document leaves behind has this shape; the counterexample state does
not.) -/
theorem claim_C3_amended :
    ∀ (cs : List SceneNode) (cid : ℕ) (st : RState) (cobj : DObj),
      aGet st.heap cid = some cobj → cobj.kids.Nodup →
      mirrorsList st cid cs cobj.kids = true →
      syncChildrenTop cs cid st = st ∧
      (syncChildrenTop cs cid st).created = st.created ∧
      (syncChildrenTop cs cid st).destroyed = st.destroyed := by
  intro cs cid st cobj hc hnd hml
  have hmain : syncChildrenTop cs cid st = st := by
    unfold syncChildrenTop
    rw [scanRemove_id cs cid st cobj hc (mirrorsList_kid cs cobj.kids hml)]
    exact syncLoop_mirrors cs cid 0 st cobj hc hnd
      (by rw [List.drop_zero]; exact hml)
  exact ⟨hmain, by rw [hmain], by rw [hmain]⟩

/-- A mirrored one-rect state for the amended theorem's instantiation. -/
def stateC3w : RState :=
  { heap := [(0, { kids := [1] }),
             (1, { meta := some ⟨"a", .rect, nodeSnapshot (.node .rect { id := "a" } none)⟩, parent := some 0 })],
    nodeMap := [("a", 1)], next := 2 }

/-- Concrete instantiation: re-reconciling the one-rect document against
its mirrored state changes nothing. -/
theorem claim_C3_witness :
    syncChildrenTop [SceneNode.node .rect { id := "a" } none] 0 stateC3w = stateC3w ∧
    (syncChildrenTop [SceneNode.node .rect { id := "a" } none] 0 stateC3w).created
      = stateC3w.created ∧
    (syncChildrenTop [SceneNode.node .rect { id := "a" } none] 0 stateC3w).destroyed
      = stateC3w.destroyed :=
  claim_C3_amended [SceneNode.node .rect { id := "a" } none] 0 stateC3w
    { kids := [1] } (by decide) (by decide) (by decide)
